import Mathlib

/-!
Shallow embedding of the agenda planning engine of the enem_planner
repository (src/services/storageService.ts together with
src/services/dateUtils.ts and the task/plan types of src/types.ts), and
proofs checking the specification's claims about it.

Modelling conventions (fixed once, used consistently):

* Calendar dates (YYYY-MM-DD strings in the source) are modelled as day
  numbers (days since 1970-01-01).  On date-only values the source's
  lexicographic string comparison is chronological comparison, `addDays`
  is addition, `getDayOfWeek` is `(d + 4) % 7` (1970-01-01 was a
  Thursday, so day 4 of the JS week that starts at Sunday = 0), and
  `getDaysBetween` is the absolute difference in days.
* JavaScript numbers are modelled as exact rationals where fractional
  values occur (priority scores, confidence factors) and as naturals
  where the source only ever holds non-negative integers (durations,
  counts, day numbers).  The float literals 0.1, 0.5, 0.01 of the scorer
  are modelled as the exact rationals 1/10, 1/2, 1/100.
* `uuidv4` draws from `Math.random`, a global PRNG.  The PRNG is
  modelled as an explicit stream `rng : Nat → Nat` of 4-bit draws
  (the source computes `(Math.random() * 16) | 0`) together with a
  position counter threaded through the computation; one call of the
  planner starts at some position and consumes draws sequentially, a
  later call continues further along the stream.
* The `Record<string, DailyPlan>` returned by `reorganizeAgenda` is
  modelled as a function `Nat → Option DailyPlan` from day numbers to
  plans; the source only ever reads it by key.
* Loops are modelled by structural recursion: the 90-day for-loops by
  a countdown of the remaining days, and the greedy while-loop by a
  fuel argument that starts at `candidates.length - idx`, which is an
  exact strictly decreasing measure of the loop (each iteration either
  removes the current candidate or advances the index), so the fuel
  never runs out before the loop condition fails.
-/

namespace EnemPlanner

/-- ENEM incidence tag of a subtopic (types.ts: `EnemIncidence`). -/
inductive EnemIncidence
  | baixa
  | media
  | alta
deriving DecidableEq

/-- One recorded completion of a subtopic (entries appended by the
completion handler: `{ date, confidence, notes }`). -/
structure HistoryEntry where
  date : Nat
  confidence : Nat
  notes : String
deriving DecidableEq

/-- A schedulable unit of study (types.ts: `Subtopic`). -/
structure Subtopic where
  id : String
  name : String
  difficulty : Nat
  enemIncidence : EnemIncidence
  confidence : Nat
  lastStudied : Option Nat
  history : List HistoryEntry
deriving DecidableEq

/-- A topic groups subtopics (types.ts: `Topic`). -/
structure Topic where
  id : String
  name : String
  subtopics : List Subtopic
deriving DecidableEq

/-- A discipline groups topics (types.ts: `Discipline`). -/
structure Discipline where
  id : String
  name : String
  weight : ℚ
  topics : List Topic
deriving DecidableEq

/-- Confidence multipliers for the review cadence
(types.ts: `AppSettings.confidenceFactors`). -/
structure ConfidenceFactors where
  low : ℚ
  high : ℚ
deriving DecidableEq

/-- The settings fields read by the planning engine (types.ts:
`AppSettings`; the Pomodoro and UI fields are never read by the planner
and are omitted).  `studyDaysPerWeek` is an integer so that the model
covers out-of-range values, which the claims talk about. -/
structure AppSettings where
  dailyStudyMinutes : Nat
  studyDaysPerWeek : Int
  maxTasksPerDisciplinePerDay : Nat
  maxReviewsPerDay : Nat
  autoReplanOnComplete : Bool
  autoReview : Bool
  baseCadence : List Nat
  confidenceFactors : ConfidenceFactors
deriving DecidableEq

/-- Task kind (types.ts: `TaskType`). -/
inductive TaskType
  | study
  | review
deriving DecidableEq

/-- A scheduled task (types.ts: `Task`).  The optional post-completion
fields are `none` when absent.  `reviewDateStr` models the extra
`reviewDateStr` property the review generator attaches to review task
objects (`Task & { reviewDateStr: string }`); it stays on the object
when the task is pushed into a day plan, and is absent (`none`) on
study tasks. -/
structure Task where
  id : String
  subtopicId : String
  topicId : String
  disciplineId : String
  subtopicName : String
  topicName : String
  disciplineName : String
  type : TaskType
  duration : Nat
  completed : Bool
  notes : Option String
  completionDate : Option Nat
  confidence : Option Nat
  reviewDateStr : Option Nat
deriving DecidableEq

/-- One day of the agenda (types.ts: `DailyPlan`). -/
structure DailyPlan where
  date : Nat
  tasks : List Task
  isRestDay : Bool
deriving DecidableEq

/-! Date utilities (dateUtils.ts), on day numbers. -/

/-- dateUtils.ts `addDays`: offset a date by a number of days (the
planner only ever adds non-negative offsets). -/
def addDays (d : Nat) (n : Nat) : Nat := d + n

/-- dateUtils.ts `getDayOfWeek`: 0 = Sunday, ..., 6 = Saturday.
Day 0 of the model (1970-01-01) was a Thursday, weekday 4. -/
def getDayOfWeek (d : Nat) : Nat := (d + 4) % 7

/-- dateUtils.ts `getDaysBetween`: absolute difference in calendar
days. -/
def getDaysBetween (d1 d2 : Nat) : Nat := max d1 d2 - min d1 d2

/-- storageService.ts: `ENEM_DATE_1 = '2025-11-09'` as a day number
(a Sunday: `getDayOfWeek` gives 0). -/
def ENEM_DATE_1 : Nat := 20401

/-- storageService.ts: `ENEM_DATE_2 = '2025-11-16'` as a day number. -/
def ENEM_DATE_2 : Nat := 20408

/-- storageService.ts: `DISCIPLINES_GROUP_1` (first exam day). -/
def DISCIPLINES_GROUP_1 : List String := ["ling", "hum", "red"]

/-- storageService.ts: `DISCIPLINES_GROUP_2` (second exam day). -/
def DISCIPLINES_GROUP_2 : List String := ["mat", "nat"]

/-! The `uuidv4` generator.  Each `x` of the template consumes one
4-bit draw `r` and becomes the hex digit of `r`; the single `y`
consumes one draw and becomes the hex digit of `(r & 0x3) | 0x8`. -/

/-- Lower-case hexadecimal digit of a value in 0..15. -/
def hexDigit (n : Nat) : Char :=
  if n < 10 then Char.ofNat (48 + n) else Char.ofNat (87 + n)

/-- The uuid template string of the source. -/
def uuidTemplate : List Char := "xxxxxxxx-xxxx-4xxx-yxxx-xxxxxxxxxxxx".toList

/-- Replace the `x`/`y` template characters using draws from the
stream, returning the produced characters and the next stream
position. -/
def uuidChars (rng : Nat → Nat) : List Char → Nat → List Char × Nat
  | [], pos => ([], pos)
  | c :: rest, pos =>
    if c = 'x' then
      let r := rng pos % 16
      let s := uuidChars rng rest (pos + 1)
      (hexDigit r :: s.1, s.2)
    else if c = 'y' then
      let r := rng pos % 16
      let s := uuidChars rng rest (pos + 1)
      (hexDigit (r % 4 + 8) :: s.1, s.2)
    else
      let s := uuidChars rng rest pos
      (c :: s.1, s.2)

/-- storageService.ts `uuidv4`, as a function of the modelled PRNG
stream and current position. -/
def uuidv4 (rng : Nat → Nat) (pos : Nat) : String × Nat :=
  let s := uuidChars rng uuidTemplate pos
  (String.mk s.1, s.2)

/-! The study-day predicate. -/

/-- storageService.ts: the `studyDayMap` literal for 1..4 study days
per week; any other key is absent. -/
def studyDayMap (n : Int) : Option (List Nat) :=
  if n = 1 then some [1]
  else if n = 2 then some [1, 3]
  else if n = 3 then some [1, 3, 5]
  else if n = 4 then some [1, 2, 4, 5]
  else none

/-- storageService.ts `isStudyDay`. -/
def isStudyDay (date : Nat) (s : AppSettings) : Bool :=
  let dayOfWeek := getDayOfWeek date
  let studyDays := s.studyDaysPerWeek
  if 7 ≤ studyDays then true
  else if studyDays = 6 then dayOfWeek != 0
  else if studyDays = 5 then dayOfWeek != 0 && dayOfWeek != 6
  else ((studyDayMap studyDays).map (fun l => l.contains dayOfWeek)).getD false

/-! The priority scorer (`calculateSubtopicPriority`), split into its
three source blocks: base scores, recency factor, ENEM date factor. -/

/-- The incidence weight map `{ baixa: 1, media: 5, alta: 10 }`. -/
def incidenceScore : EnemIncidence → ℚ
  | EnemIncidence.baixa => 1
  | EnemIncidence.media => 5
  | EnemIncidence.alta => 10

/-- The "Base scores" block of `calculateSubtopicPriority`.  The
source's `||` defaults (`discipline.weight || 1`, `subtopic.difficulty
|| 3`, `subtopic.confidence || 3`) replace a zero value by the
default. -/
def baseScore (st : Subtopic) (d : Discipline) : ℚ :=
  (if d.weight = 0 then 1 else d.weight) * 20
    + (if st.difficulty = 0 then (3 : ℚ) else (st.difficulty : ℚ)) * 5
    + incidenceScore st.enemIncidence
    + (6 - (if st.confidence = 0 then (3 : ℚ) else (st.confidence : ℚ))) * 10

/-- The "Recency factor" block of `calculateSubtopicPriority`. -/
def recencyAdjust (st : Subtopic) (today : Nat) (score : ℚ) : ℚ :=
  match st.lastStudied with
  | some ls =>
    let daysSince := getDaysBetween ls today
    if daysSince ≤ 3 then score * (1 / 10)
    else if daysSince ≤ 7 then score * (1 / 2)
    else if 90 < daysSince then score + 100
    else if 30 < daysSince then score + 50
    else score + 15
  | none => score + 1000

/-- The "ENEM Date Factor" block of `calculateSubtopicPriority`. -/
def examAdjust (d : Discipline) (today : Nat) (score : ℚ) : ℚ :=
  if today < ENEM_DATE_1 then
    if DISCIPLINES_GROUP_1.contains d.id then score + 150 else score
  else if ENEM_DATE_1 ≤ today ∧ today < ENEM_DATE_2 then
    if DISCIPLINES_GROUP_2.contains d.id then score + 500
    else if DISCIPLINES_GROUP_1.contains d.id then score * (1 / 100)
    else score
  else score

/-- storageService.ts `calculateSubtopicPriority`: the three blocks in
source order. -/
def calculateSubtopicPriority (st : Subtopic) (d : Discipline) (today : Nat) : ℚ :=
  examAdjust d today (recencyAdjust st today (baseScore st d))

/-! The review-cadence generator (`createReviewTasks`). -/

/-- `Math.round(n * q)` for a natural `n` and rational `q`: JS
`Math.round` rounds half up, i.e. `x ↦ ⌊x + 1/2⌋`, and for
`x = (n * q.num) / q.den` that floor is the integer division below
(theorem `roundMulNat_eq_round` proves this equals Mathlib's `round`,
which also rounds half up).  Written with integer division so that it
evaluates inside the kernel. -/
def roundMulNat (n : Nat) (q : ℚ) : ℤ :=
  (2 * (n * q.num) + q.den) / ((2 * q.den : ℕ) : ℤ)

/-- The cadence computation of `createReviewTasks` for one subtopic:
the due date of the next review, or `none` when the unit was never
studied, has no history, or has exhausted `baseCadence`.  The next
interval is `Math.max(1, Math.round(baseInterval * confidenceFactor))`
days. -/
def reviewDueDate (s : AppSettings) (st : Subtopic) : Option Nat :=
  match st.lastStudied with
  | some ls =>
    if 0 < st.history.length then
      if h : st.history.length - 1 < s.baseCadence.length then
        let baseInterval := s.baseCadence.get ⟨st.history.length - 1, h⟩
        let confidenceFactor : ℚ :=
          if st.confidence ≤ 2 then s.confidenceFactors.low
          else if 4 ≤ st.confidence then s.confidenceFactors.high
          else 1
        some (addDays ls (max 1 (roundMulNat baseInterval confidenceFactor)).toNat)
      else none
    else none
  | none => none

/-- The review task `createReviewTasks` builds for one subtopic (with
a placeholder empty id; the caller substitutes the drawn uuid), or
`none` when no task is emitted: the due date must exist and must not
lie before today. -/
def subtopicReviewInfo (s : AppSettings) (today : Nat) (d : Discipline) (t : Topic)
    (st : Subtopic) : Option Task :=
  match reviewDueDate s st with
  | some rd =>
    if today ≤ rd then
      some { id := "", subtopicId := st.id, topicId := t.id, disciplineId := d.id,
             subtopicName := st.name, topicName := t.name, disciplineName := d.name,
             type := TaskType.review, duration := 25, completed := false,
             notes := none, completionDate := none, confidence := none,
             reviewDateStr := some rd }
    else none
  | none => none

/-- Whether `createReviewTasks` emits a review for this subtopic (the
guard only reads the subtopic and the settings). -/
def emitsReview (s : AppSettings) (today : Nat) (st : Subtopic) : Bool :=
  match reviewDueDate s st with
  | some rd => decide (today ≤ rd)
  | none => false

/-- One subtopic step of `createReviewTasks`: emit the review task
(drawing its uuid) or nothing. -/
def subtopicReview (rng : Nat → Nat) (s : AppSettings) (today : Nat) (d : Discipline)
    (t : Topic) (st : Subtopic) (pos : Nat) : List Task × Nat :=
  match subtopicReviewInfo s today d t st with
  | some t0 =>
    let u := uuidv4 rng pos
    ([{ t0 with id := u.1 }], u.2)
  | none => ([], pos)

/-- The inner `subtopics.forEach` of `createReviewTasks`. -/
def reviewTasksForSubtopics (rng : Nat → Nat) (s : AppSettings) (today : Nat)
    (d : Discipline) (t : Topic) : List Subtopic → Nat → List Task × Nat
  | [], pos => ([], pos)
  | st :: rest, pos =>
    let r1 := subtopicReview rng s today d t st pos
    let r2 := reviewTasksForSubtopics rng s today d t rest r1.2
    (r1.1 ++ r2.1, r2.2)

/-- The `topics.forEach` of `createReviewTasks`. -/
def reviewTasksForTopics (rng : Nat → Nat) (s : AppSettings) (today : Nat)
    (d : Discipline) : List Topic → Nat → List Task × Nat
  | [], pos => ([], pos)
  | t :: rest, pos =>
    let r1 := reviewTasksForSubtopics rng s today d t t.subtopics pos
    let r2 := reviewTasksForTopics rng s today d rest r1.2
    (r1.1 ++ r2.1, r2.2)

/-- The `disciplines.forEach` of `createReviewTasks`. -/
def reviewTasksForDisciplines (rng : Nat → Nat) (s : AppSettings) (today : Nat) :
    List Discipline → Nat → List Task × Nat
  | [], pos => ([], pos)
  | d :: rest, pos =>
    let r1 := reviewTasksForTopics rng s today d d.topics pos
    let r2 := reviewTasksForDisciplines rng s today rest r1.2
    (r1.1 ++ r2.1, r2.2)

/-- storageService.ts `createReviewTasks`: nothing when `autoReview`
is off, otherwise the review tasks of every subtopic in traversal
order.  Returns the tasks and the next PRNG position. -/
def createReviewTasks (rng : Nat → Nat) (disciplines : List Discipline) (s : AppSettings)
    (today : Nat) (pos : Nat) : List Task × Nat :=
  if s.autoReview then reviewTasksForDisciplines rng s today disciplines pos
  else ([], pos)

/-! The scheduler (`reorganizeAgenda`). -/

/-- One occurrence of a subtopic in the discipline tree, with its
parents (the source's spread `{ ...st, topic: t, discipline: d }`
before scoring). -/
structure Occ where
  discipline : Discipline
  topic : Topic
  st : Subtopic
deriving DecidableEq

/-- The flatten of the discipline tree used to build study candidates
(and to state uniqueness hypotheses about ids). -/
def occs (ds : List Discipline) : List Occ :=
  ds.flatMap fun d => d.topics.flatMap fun t => t.subtopics.map fun st => ⟨d, t, st⟩

/-- All subtopic ids of the tree, in flatten order. -/
def allSubtopicIds (ds : List Discipline) : List String :=
  (occs ds).map fun o => o.st.id

/-- A scored study candidate. -/
structure Candidate where
  st : Subtopic
  topic : Topic
  discipline : Discipline
  priority : ℚ
deriving DecidableEq

/-- Stable descending insertion by priority: a candidate is placed
before the first strictly-lower-or-equal... precisely, before the
first element whose priority is at most its own, so that earlier
elements win ties. -/
def insertDesc (c : Candidate) : List Candidate → List Candidate
  | [] => [c]
  | x :: xs => if x.priority ≤ c.priority then c :: x :: xs else x :: insertDesc c xs

/-- Stable sort, descending by priority: models the source's
`sort((a, b) => b.priority - a.priority)` (ES2019 `Array.sort` is
stable). -/
def sortDesc (l : List Candidate) : List Candidate := l.foldr insertDesc []

/-- The `studyCandidates` pipeline of `reorganizeAgenda`: flatten,
drop units that already have an upcoming review (unless never
studied), score, sort descending. -/
def studyCandidates (ds : List Discipline) (today : Nat) (reviewedIds : List String) :
    List Candidate :=
  sortDesc (((occs ds).filter fun o =>
      o.st.lastStudied.isNone || !(reviewedIds.contains o.st.id)).map
    fun o => { st := o.st, topic := o.topic, discipline := o.discipline,
               priority := calculateSubtopicPriority o.st o.discipline today })

/-- The empty plan record. -/
def emptyPlans : Nat → Option DailyPlan := fun _ => none

/-- Store a plan under a date key (`plans[dateStr] = plan`). -/
def setPlan (plans : Nat → Option DailyPlan) (d : Nat) (p : DailyPlan) :
    Nat → Option DailyPlan :=
  fun x => if x = d then some p else plans x

/-- The planning horizon of `reorganizeAgenda` (90 days). -/
def planningHorizon : Nat := 90

/-- The initialization loop of `reorganizeAgenda`: one fresh
`DailyPlan` per date in `[today, today + 89]`. -/
def initPlans (s : AppSettings) (today : Nat) : Nat → Option DailyPlan :=
  (List.range planningHorizon).foldl
    (fun plans i =>
      setPlan plans (addDays today i)
        { date := addDays today i, tasks := [], isRestDay := !isStudyDay (addDays today i) s })
    emptyPlans

/-- The running total `dayPlan.tasks.reduce((sum, t) => sum +
t.duration, 0)`. -/
def sumDur (tasks : List Task) : Nat := tasks.foldl (fun acc t => acc + t.duration) 0

/-- The running count `dayPlan.tasks.filter(t => t.type ===
'review').length`. -/
def reviewCount (tasks : List Task) : Nat :=
  (tasks.filter fun t => decide (t.type = TaskType.review)).length

/-- The review placement step of `reorganizeAgenda`: place the task on
its due date if that date is in the horizon, is not a rest day, fits
the minute budget and the review cap; otherwise drop it silently. -/
def placeReviewTask (s : AppSettings) (plans : Nat → Option DailyPlan) (task : Task) :
    Nat → Option DailyPlan :=
  match task.reviewDateStr with
  | none => plans
  | some rd =>
    match plans rd with
    | none => plans
    | some dayPlan =>
      if dayPlan.isRestDay then plans
      else if sumDur dayPlan.tasks + task.duration ≤ s.dailyStudyMinutes
          ∧ reviewCount dayPlan.tasks < s.maxReviewsPerDay then
        setPlan plans rd { dayPlan with tasks := dayPlan.tasks ++ [task] }
      else plans

/-- Point update of the per-day per-discipline tally
(`acc[t.disciplineId] = (acc[t.disciplineId] || 0) + 1`). -/
def bumpCount (m : String → Nat) (i : String) : String → Nat :=
  fun x => if x = i then m i + 1 else m x

/-- The `disciplineCountToday` reduce of `reorganizeAgenda`. -/
def countByDiscipline (tasks : List Task) : String → Nat :=
  tasks.foldl (fun acc t => bumpCount acc t.disciplineId) fun _ => 0

/-- The study task pushed by the greedy fill (fixed duration 45). -/
def mkStudyTask (i : String) (c : Candidate) : Task :=
  { id := i, subtopicId := c.st.id, topicId := c.topic.id, disciplineId := c.discipline.id,
    subtopicName := c.st.name, topicName := c.topic.name,
    disciplineName := c.discipline.name, type := TaskType.study, duration := 45,
    completed := false, notes := none, completionDate := none, confidence := none,
    reviewDateStr := none }

/-- The greedy while-loop of `reorganizeAgenda` for one day.  State:
the day's task list, minutes used, per-discipline tally, the global
candidate pool, the scan index, the PRNG position.  The fuel is
`candidates.length - idx` at entry: every iteration decreases that
measure by exactly one (placing removes the candidate at `idx`,
skipping advances `idx`), so fuel 0 implies the loop condition is
already false. -/
def fillLoop (rng : Nat → Nat) (s : AppSettings) :
    Nat → List Task → Nat → (String → Nat) → List Candidate → Nat → Nat →
    List Task × List Candidate × Nat
  | 0, tasks, _, _, cands, _, pos => (tasks, cands, pos)
  | fuel + 1, tasks, timeSpent, counts, cands, idx, pos =>
    if timeSpent < s.dailyStudyMinutes then
      match cands[idx]? with
      | some c =>
        if timeSpent + 45 ≤ s.dailyStudyMinutes
            ∧ counts c.discipline.id < s.maxTasksPerDisciplinePerDay then
          let u := uuidv4 rng pos
          fillLoop rng s fuel (tasks ++ [mkStudyTask u.1 c]) (timeSpent + 45)
            (bumpCount counts c.discipline.id) (cands.eraseIdx idx) idx u.2
        else fillLoop rng s fuel tasks timeSpent counts cands (idx + 1) pos
      | none => (tasks, cands, pos)
    else (tasks, cands, pos)

/-- The day-by-day greedy fill of `reorganizeAgenda`: iterate the
dates `today + i` for `i` from the current index up to the horizon
(`k` counts the remaining days), skipping missing and rest days. -/
def fillDays (rng : Nat → Nat) (s : AppSettings) (today : Nat) :
    Nat → Nat → (Nat → Option DailyPlan) → List Candidate → Nat →
    (Nat → Option DailyPlan) × List Candidate × Nat
  | 0, _, plans, cands, pos => (plans, cands, pos)
  | k + 1, i, plans, cands, pos =>
    match plans (addDays today i) with
    | none => fillDays rng s today k (i + 1) plans cands pos
    | some dayPlan =>
      if dayPlan.isRestDay then fillDays rng s today k (i + 1) plans cands pos
      else
        let r := fillLoop rng s cands.length dayPlan.tasks (sumDur dayPlan.tasks)
          (countByDiscipline dayPlan.tasks) cands 0 pos
        fillDays rng s today k (i + 1)
          (setPlan plans (addDays today i) { dayPlan with tasks := r.1 }) r.2.1 r.2.2

/-- storageService.ts `reorganizeAgenda`.  `today` is the value of
`getTodayDateString()` during the run (the source reads the ambient
clock; both reads within one run see the same day); `rng`/`pos` model
the global PRNG as described at the top of the file. -/
def reorganizeAgenda (rng : Nat → Nat) (disciplines : List Discipline) (s : AppSettings)
    (today : Nat) (pos : Nat) : Nat → Option DailyPlan :=
  if disciplines.isEmpty then emptyPlans
  else
    let rt := createReviewTasks rng disciplines s today pos
    let reviewedIds := rt.1.map fun t => t.subtopicId
    let cands := studyCandidates disciplines today reviewedIds
    let plans1 := rt.1.foldl (placeReviewTask s) (initPlans s today)
    (fillDays rng s today planningHorizon 0 plans1 cands rt.2).1

/-! Derived notions used to state the claims. -/

/-- A task with its (randomly drawn) id blanked out. -/
def stripTask (t : Task) : Task := { t with id := "" }

/-- A plan with all task ids blanked out. -/
def stripPlan (p : DailyPlan) : DailyPlan := { p with tasks := p.tasks.map stripTask }

/-- A plan map with all task ids blanked out. -/
def stripPlans (plans : Nat → Option DailyPlan) : Nat → Option DailyPlan :=
  fun x => (plans x).map stripPlan

/-- The task list stored under a date key (empty when the key is
absent). -/
def dayTasks (plans : Nat → Option DailyPlan) (d : Nat) : List Task :=
  ((plans d).map fun p => p.tasks).getD []

/-- All tasks of the 90-day horizon, day by day. -/
def tasksInWindow (plans : Nat → Option DailyPlan) (today : Nat) : List Task :=
  (List.range planningHorizon).flatMap fun i => dayTasks plans (addDays today i)

/-- Number of tasks of a given discipline in a task list. -/
def countDisc (tasks : List Task) (did : String) : Nat :=
  tasks.countP fun t => decide (t.disciplineId = did)

/-- Number of review tasks of a given discipline in a task list. -/
def reviewCountDisc (tasks : List Task) (did : String) : Nat :=
  tasks.countP fun t => decide (t.disciplineId = did ∧ t.type = TaskType.review)

/-- Number of tasks of a given subtopic id in a task list. -/
def countId (tasks : List Task) (sid : String) : Nat :=
  tasks.countP fun t => decide (t.subtopicId = sid)

/-- Number of tasks of a given subtopic id across the whole horizon,
summed day by day. -/
def windowCount (plans : Nat → Option DailyPlan) (today : Nat) (sid : String) : Nat :=
  ((List.range planningHorizon).map fun i =>
    countId (dayTasks plans (addDays today i)) sid).sum

/-- Number of candidates of a given subtopic id in the pool. -/
def candCount (cands : List Candidate) (sid : String) : Nat :=
  cands.countP fun c => decide (c.st.id = sid)

/-- The review tasks of a run with ids blanked out: one task per
emitting subtopic occurrence, in traversal order (the PRNG only
influences the drawn ids). -/
def pureReviewTasks (ds : List Discipline) (s : AppSettings) (today : Nat) : List Task :=
  if s.autoReview then
    (occs ds).flatMap fun o => (subtopicReviewInfo s today o.discipline o.topic o.st).toList
  else []

/-- Modelled from the spec: the set of study weekdays per
`studyDaysPerWeek`, as the specification describes it — 7 every day, 6
all but Sunday, 5 all but the weekend, 1–4 the canonical subsets, and
(as the counterexample to C6 forces) every value of 7 or more behaves
like 7, while any remaining value (necessarily ≤ 0) fails closed. -/
def canonicalStudyWeekdays (n : Int) : List Nat :=
  if 7 ≤ n then [0, 1, 2, 3, 4, 5, 6]
  else if n = 6 then [1, 2, 3, 4, 5, 6]
  else if n = 5 then [1, 2, 3, 4, 5]
  else if n = 4 then [1, 2, 4, 5]
  else if n = 3 then [1, 3, 5]
  else if n = 2 then [1, 3]
  else if n = 1 then [1]
  else []

/-- A task as freshly constructed by the planner: not completed and
without any of the post-completion fields. -/
def TaskClean (tk : Task) : Prop :=
  tk.completed = false ∧ tk.notes = none ∧ tk.completionDate = none ∧ tk.confidence = none

/-- The only durations the planner ever emits: 25-minute reviews and
45-minute study blocks (tasks are placed whole, never truncated). -/
def DurOk (tk : Task) : Prop := tk.duration = 25 ∨ tk.duration = 45

/-- The structural invariant of the plan record: exactly the dates of
`[today, today + 89]` are present, each mapped to a plan carrying that
date. -/
def PlansShape (today : Nat) (plans : Nat → Option DailyPlan) : Prop :=
  ∀ x : Nat,
    (today ≤ x ∧ x < today + planningHorizon →
      ∃ p, plans x = some p ∧ p.date = x) ∧
    (¬(today ≤ x ∧ x < today + planningHorizon) → plans x = none)

/-! Concrete inputs used by the counterexamples and the witnesses.
Confidence factors and weights are integer-valued rationals so that
every arithmetic step of a run evaluates inside the kernel. -/

/-- A 4-bit PRNG stream used by concrete runs. -/
def wRng : Nat → Nat := fun n => n % 16

/-- A fallback plan for total projections out of `Option`. -/
def dummyPlan : DailyPlan := { date := 0, tasks := [], isRestDay := true }

/-- A never-studied subtopic. -/
def wSub : Subtopic :=
  { id := "s1", name := "S1", difficulty := 3, enemIncidence := EnemIncidence.media,
    confidence := 3, lastStudied := none, history := [] }

/-- A topic holding `wSub`. -/
def wTop : Topic := { id := "t1", name := "T1", subtopics := [wSub] }

/-- A discipline holding `wTop`. -/
def wDisc : Discipline :=
  { id := "mat", name := "Matematica", weight := 1, topics := [wTop] }

/-- Settings whose daily budget fits exactly one 45-minute study
task. -/
def wSettings : AppSettings :=
  { dailyStudyMinutes := 45, studyDaysPerWeek := 7, maxTasksPerDisciplinePerDay := 2,
    maxReviewsPerDay := 2, autoReplanOnComplete := false, autoReview := true,
    baseCadence := [1, 3, 7], confidenceFactors := { low := 2, high := 1 } }

/-- The day number used as `today` by the concrete runs
(2024-10-04, a Friday, before both ENEM dates). -/
def wToday : Nat := 20000

/-- The day plan the one-unit run produces for `wToday`. -/
def w3plan : DailyPlan :=
  ((reorganizeAgenda wRng [wDisc] wSettings wToday 0) wToday).getD dummyPlan

/-- The study task of `w3plan`. -/
def w10task : Task := w3plan.tasks.headD (mkStudyTask "" ⟨wSub, wTop, wDisc, 0⟩)

/-- A studied subtopic with one completion, due for review one day
after `wToday`. -/
def c2Sub1 : Subtopic :=
  { id := "s1", name := "S1", difficulty := 3, enemIncidence := EnemIncidence.media,
    confidence := 3, lastStudied := some 20000,
    history := [{ date := 20000, confidence := 3, notes := "" }] }

/-- A second studied subtopic of the same discipline, also due one day
after `wToday`. -/
def c2Sub2 : Subtopic :=
  { id := "s2", name := "S2", difficulty := 3, enemIncidence := EnemIncidence.media,
    confidence := 3, lastStudied := some 20000,
    history := [{ date := 20000, confidence := 3, notes := "" }] }

/-- A topic holding the two studied subtopics. -/
def c2Top : Topic := { id := "t1", name := "T1", subtopics := [c2Sub1, c2Sub2] }

/-- A discipline holding `c2Top`. -/
def c2Disc : Discipline :=
  { id := "mat", name := "Matematica", weight := 1, topics := [c2Top] }

/-- Settings with a per-discipline cap of 1 but room for several
reviews. -/
def c2Settings : AppSettings :=
  { dailyStudyMinutes := 100, studyDaysPerWeek := 7, maxTasksPerDisciplinePerDay := 1,
    maxReviewsPerDay := 10, autoReplanOnComplete := false, autoReview := true,
    baseCadence := [1], confidenceFactors := { low := 2, high := 1 } }

/-- The day plan the two-review run produces for the due date
`wToday + 1`. -/
def c2plan : DailyPlan :=
  ((reorganizeAgenda wRng [c2Disc] c2Settings wToday 0) 20001).getD dummyPlan

/-- A never-studied second unit. -/
def wSub2 : Subtopic :=
  { id := "s2", name := "S2", difficulty := 2, enemIncidence := EnemIncidence.alta,
    confidence := 3, lastStudied := none, history := [] }

/-- A discipline mixing one studied unit (review due at
`wToday + 1`) and one never-studied unit. -/
def c4Disc : Discipline :=
  { id := "mat", name := "Matematica", weight := 1,
    topics := [{ id := "t1", name := "T1", subtopics := [c2Sub1, wSub2] }] }

/-- Settings for the mixed run: budget for one study task and one
review per day. -/
def c4Settings : AppSettings :=
  { dailyStudyMinutes := 70, studyDaysPerWeek := 7, maxTasksPerDisciplinePerDay := 2,
    maxReviewsPerDay := 1, autoReplanOnComplete := false, autoReview := true,
    baseCadence := [1], confidenceFactors := { low := 2, high := 1 } }

/-- Settings with the unhandled `studyDaysPerWeek = 8`. -/
def s8Settings : AppSettings :=
  { dailyStudyMinutes := 60, studyDaysPerWeek := 8, maxTasksPerDisciplinePerDay := 1,
    maxReviewsPerDay := 1, autoReplanOnComplete := false, autoReview := false,
    baseCadence := [1], confidenceFactors := { low := 2, high := 1 } }

/-- A never-studied unit for the scorer comparison. -/
def c9SubU : Subtopic :=
  { id := "u1", name := "U", difficulty := 2, enemIncidence := EnemIncidence.alta,
    confidence := 2, lastStudied := none, history := [] }

/-- The same unit studied yesterday. -/
def c9SubS : Subtopic :=
  { id := "u2", name := "U", difficulty := 2, enemIncidence := EnemIncidence.alta,
    confidence := 2, lastStudied := some 19999,
    history := [{ date := 19999, confidence := 2, notes := "" }] }

/-! General helper lemmas. -/

/-- The kernel-friendly `roundMulNat` agrees with Mathlib's round-half-up
`round` (both model JS `Math.round`). -/
theorem roundMulNat_eq_round (n : Nat) (q : ℚ) : roundMulNat n q = round ((n : ℚ) * q) := by
  rw [round_eq, roundMulNat]
  have hden : ((q.den : ℚ)) ≠ 0 := by exact_mod_cast q.den_nz
  have h : (n : ℚ) * q + 1 / 2
      = ((2 * ((n : ℤ) * q.num) + (q.den : ℤ) : ℤ) : ℚ) / ((2 * q.den : ℕ) : ℚ) := by
    conv_lhs => rw [show (q : ℚ) = (q.num : ℚ) / (q.den : ℚ) from (Rat.num_div_den q).symm]
    push_cast
    field_simp
    ring
  rw [h, Rat.floor_intCast_div_natCast]

theorem foldl_dur (l : List Task) (n : Nat) :
    l.foldl (fun acc t => acc + t.duration) n = n + sumDur l := by
  induction l generalizing n with
  | nil => simp [sumDur]
  | cons t l ih => rw [sumDur, List.foldl_cons, List.foldl_cons, ih, ih]; omega

theorem sumDur_append (l₁ l₂ : List Task) : sumDur (l₁ ++ l₂) = sumDur l₁ + sumDur l₂ := by
  rw [sumDur, List.foldl_append, foldl_dur, foldl_dur]
  omega

theorem reviewCount_append (l₁ l₂ : List Task) :
    reviewCount (l₁ ++ l₂) = reviewCount l₁ + reviewCount l₂ := by
  simp [reviewCount, List.filter_append]

theorem countByDiscipline_foldl (l : List Task) (acc : String → Nat) (x : String) :
    (l.foldl (fun a t => bumpCount a t.disciplineId) acc) x = acc x + countDisc l x := by
  induction l generalizing acc with
  | nil => simp [countDisc]
  | cons t l ih =>
    rw [List.foldl_cons, ih]
    simp only [countDisc, List.countP_cons]
    by_cases h : t.disciplineId = x
    · simp only [bumpCount, h, if_pos rfl, decide_eq_true_eq, if_true]
      omega
    · have h2 : ¬(x = t.disciplineId) := fun hx => h hx.symm
      simp [bumpCount, h2, h]

theorem countByDiscipline_eq (l : List Task) (x : String) :
    countByDiscipline l x = countDisc l x := by
  simpa using countByDiscipline_foldl l (fun _ => 0) x

theorem countDisc_append (l₁ l₂ : List Task) (x : String) :
    countDisc (l₁ ++ l₂) x = countDisc l₁ x + countDisc l₂ x := by
  simp [countDisc]

theorem countId_append (l₁ l₂ : List Task) (x : String) :
    countId (l₁ ++ l₂) x = countId l₁ x + countId l₂ x := by
  simp [countId]

theorem reviewCountDisc_append (l₁ l₂ : List Task) (x : String) :
    reviewCountDisc (l₁ ++ l₂) x = reviewCountDisc l₁ x + reviewCountDisc l₂ x := by
  simp [reviewCountDisc]

theorem setPlan_apply (plans : Nat → Option DailyPlan) (d : Nat) (p : DailyPlan) (x : Nat) :
    setPlan plans d p x = if x = d then some p else plans x := rfl

/-- Characterization of the initialization loop. -/
theorem initPlans_apply (s : AppSettings) (today x : Nat) :
    initPlans s today x =
      if today ≤ x ∧ x < today + planningHorizon
      then some { date := x, tasks := [], isRestDay := !isStudyDay x s }
      else none := by
  have h : ∀ n (pl : Nat → Option DailyPlan),
      ((List.range n).foldl (fun plans i => setPlan plans (addDays today i)
        { date := addDays today i, tasks := [],
          isRestDay := !isStudyDay (addDays today i) s }) pl) x
      = if today ≤ x ∧ x < today + n
        then some { date := x, tasks := [], isRestDay := !isStudyDay x s }
        else pl x := by
    intro n
    induction n with
    | zero =>
      intro pl
      rw [List.range_zero, List.foldl_nil, if_neg]
      omega
    | succ n ih =>
      intro pl
      rw [List.range_succ, List.foldl_append, List.foldl_cons, List.foldl_nil, setPlan_apply]
      by_cases hx2 : x = addDays today n
      · rw [if_pos hx2, if_pos (by rw [addDays] at hx2; omega)]
        rw [hx2]
      · rw [if_neg hx2, ih]
        by_cases hx : today ≤ x ∧ x < today + n
        · rw [if_pos hx, if_pos (by omega)]
        · rw [if_neg hx, if_neg (by rw [addDays] at hx2; omega)]
  rw [initPlans, h planningHorizon emptyPlans]
  rfl

theorem plansShape_init (s : AppSettings) (today : Nat) :
    PlansShape today (initPlans s today) := by
  intro x
  constructor
  · intro hx
    rw [initPlans_apply, if_pos hx]
    exact ⟨_, rfl, rfl⟩
  · intro hx
    rw [initPlans_apply, if_neg hx]

theorem plansShape_setPlan {today : Nat} {plans : Nat → Option DailyPlan}
    (h : PlansShape today plans) {d : Nat} {p q : DailyPlan}
    (hd : plans d = some p) (hq : q.date = p.date) :
    PlansShape today (setPlan plans d q) := by
  intro x
  have hdw : today ≤ d ∧ d < today + planningHorizon := by
    by_contra hc
    rw [(h d).2 hc] at hd
    exact Option.noConfusion hd
  constructor
  · intro hx
    rw [setPlan_apply]
    by_cases hxd : x = d
    · refine ⟨q, if_pos hxd, ?_⟩
      obtain ⟨p', hp', hp'd⟩ := (h d).1 hdw
      rw [hd] at hp'
      cases hp'
      rw [hq, hp'd, hxd]
    · rw [if_neg hxd]
      exact (h x).1 hx
  · intro hx
    rw [setPlan_apply, if_neg (by rintro rfl; exact hx hdw)]
    exact (h x).2 hx

theorem plansShape_place (s : AppSettings) {today : Nat} {plans : Nat → Option DailyPlan}
    (h : PlansShape today plans) (task : Task) :
    PlansShape today (placeReviewTask s plans task) := by
  rw [placeReviewTask]
  split
  · exact h
  · split
    · exact h
    · split
      · exact h
      · split
        · rename_i rd x dayPlan hrd hrest hfit
          exact plansShape_setPlan h hrd rfl
        · exact h

theorem plansShape_placeFold (s : AppSettings) {today : Nat} {plans : Nat → Option DailyPlan}
    (h : PlansShape today plans) (tasks : List Task) :
    PlansShape today (tasks.foldl (placeReviewTask s) plans) := by
  induction tasks generalizing plans with
  | nil => exact h
  | cons t rest ih => exact ih (plansShape_place s h t)

theorem plansShape_fillDays (rng : Nat → Nat) (s : AppSettings) {today : Nat}
    (k i : Nat) {plans : Nat → Option DailyPlan} (h : PlansShape today plans)
    (cands : List Candidate) (pos : Nat) :
    PlansShape today (fillDays rng s today k i plans cands pos).1 := by
  induction k generalizing i plans cands pos with
  | zero => exact h
  | succ k ih =>
    rw [fillDays]
    split
    · exact ih (i + 1) h cands pos
    · split
      · exact ih (i + 1) h cands pos
      · rename_i dayPlan hday hrest
        refine ih (i + 1) ?_ _ _
        exact plansShape_setPlan h hday rfl

/-! Claim C6: the study-day predicate. -/

/-- C6 counterexample: the claim says any `studyDaysPerWeek` other
than the handled values 1–7 yields "not a study day" for every
weekday, but the source's first branch is `studyDays >= 7`, so the
unrecognized value 8 makes every day — here a Sunday — a study day. -/
theorem C6_counterexample :
    s8Settings.studyDaysPerWeek = 8 ∧ getDayOfWeek 20002 = 0
      ∧ isStudyDay 20002 s8Settings = true := by
  decide

/-- C6 (amended): the study-day predicate depends only on the weekday
and `studyDaysPerWeek`: every value `≥ 7` (not only 7) makes every day
a study day; 6 gives all days but Sunday; 5 all days but the weekend;
1–4 the canonical subsets Monday / Mon-Wed / Mon-Wed-Fri /
Mon-Tue-Thu-Fri; and every remaining value (necessarily `≤ 0`) fails
closed. -/
theorem C6_studyday_characterization (s : AppSettings) (date : Nat) :
    isStudyDay date s
      = (canonicalStudyWeekdays s.studyDaysPerWeek).contains (getDayOfWeek date) := by
  have hw : getDayOfWeek date < 7 := Nat.mod_lt _ (by omega)
  simp only [isStudyDay, canonicalStudyWeekdays, studyDayMap]
  generalize hgen : getDayOfWeek date = w at hw ⊢
  by_cases h7 : 7 ≤ s.studyDaysPerWeek
  · rw [if_pos h7, if_pos h7]
    interval_cases w <;> rfl
  · by_cases h6 : s.studyDaysPerWeek = 6
    · rw [h6]
      interval_cases w <;> decide
    · by_cases h5 : s.studyDaysPerWeek = 5
      · rw [h5]
        interval_cases w <;> decide
      · by_cases h4 : s.studyDaysPerWeek = 4
        · rw [h4]
          interval_cases w <;> decide
        · by_cases h3 : s.studyDaysPerWeek = 3
          · rw [h3]
            interval_cases w <;> decide
          · by_cases h2 : s.studyDaysPerWeek = 2
            · rw [h2]
              interval_cases w <;> decide
            · by_cases h1 : s.studyDaysPerWeek = 1
              · rw [h1]
                interval_cases w <;> decide
              · simp only [if_neg h7, if_neg h6, if_neg h5, if_neg h4, if_neg h3, if_neg h2,
                  if_neg h1]
                rfl

/-! Claim C9: unstudied units outscore otherwise-identical studied
units. -/

theorem baseScore_pos (st : Subtopic) (d : Discipline) (hw : 0 ≤ d.weight)
    (hc : st.confidence ≤ 5) : 0 < baseScore st d := by
  rw [baseScore]
  have hwpos : 0 < (if d.weight = 0 then (1 : ℚ) else d.weight) := by
    split
    · norm_num
    · rename_i h
      exact lt_of_le_of_ne hw (Ne.symm h)
  have hdiff : 0 ≤ (if st.difficulty = 0 then (3 : ℚ) else (st.difficulty : ℚ)) := by
    split
    · norm_num
    · positivity
  have hinc : 0 < incidenceScore st.enemIncidence := by
    cases st.enemIncidence <;> norm_num [incidenceScore]
  have hconf : 0 ≤ 6 - (if st.confidence = 0 then (3 : ℚ) else (st.confidence : ℚ)) := by
    split
    · norm_num
    · have h5 : (st.confidence : ℚ) ≤ 5 := by exact_mod_cast hc
      linarith
  linarith

theorem recencyAdjust_lt_unstudied (st : Subtopic) (today : Nat) (score : ℚ)
    (hpos : 0 < score) (ls : Nat) (hls : st.lastStudied = some ls) :
    recencyAdjust st today score < score + 1000 := by
  simp only [recencyAdjust, hls]
  split_ifs <;> linarith

theorem recencyAdjust_none (st : Subtopic) (today : Nat) (score : ℚ)
    (hls : st.lastStudied = none) : recencyAdjust st today score = score + 1000 := by
  simp only [recencyAdjust, hls]

theorem examAdjust_strictMono (d : Discipline) (today : Nat) {a b : ℚ} (hab : a < b) :
    examAdjust d today a < examAdjust d today b := by
  simp only [examAdjust]
  split_ifs <;> linarith

/-- C9: two units identical in discipline, difficulty, incidence and
confidence (within the data model's 1–5 range, and with a non-negative
discipline weight), one never studied and one with any recorded last
study date: the scorer ranks the unstudied one strictly higher, for
every value of `today` (in particular through both exam-phase
adjustment windows). -/
theorem C9_unstudied_scores_higher (stU stS : Subtopic) (d : Discipline) (today : Nat)
    (hw : 0 ≤ d.weight) (hcb : stS.confidence ≤ 5)
    (hdiff : stU.difficulty = stS.difficulty) (hinc : stU.enemIncidence = stS.enemIncidence)
    (hconf : stU.confidence = stS.confidence)
    (hU : stU.lastStudied = none) (ls : Nat) (hS : stS.lastStudied = some ls) :
    calculateSubtopicPriority stS d today < calculateSubtopicPriority stU d today := by
  have hbase : baseScore stU d = baseScore stS d := by
    rw [baseScore, baseScore, hdiff, hinc, hconf]
  have hpos : 0 < baseScore stS d := baseScore_pos stS d hw hcb
  rw [calculateSubtopicPriority, calculateSubtopicPriority]
  apply examAdjust_strictMono
  rw [hbase, recencyAdjust_none stU today _ hU]
  exact recencyAdjust_lt_unstudied stS today _ hpos ls hS

/-- C9 witness: the theorem applied to a concrete pair of units. -/
theorem C9_witness :
    (0 ≤ wDisc.weight ∧ c9SubS.confidence ≤ 5
      ∧ c9SubU.difficulty = c9SubS.difficulty
      ∧ c9SubU.enemIncidence = c9SubS.enemIncidence
      ∧ c9SubU.confidence = c9SubS.confidence
      ∧ c9SubU.lastStudied = none ∧ c9SubS.lastStudied = some 19999)
    ∧ calculateSubtopicPriority c9SubS wDisc wToday
        < calculateSubtopicPriority c9SubU wDisc wToday := by
  refine ⟨⟨by decide, by decide, by decide, by decide, by decide, by decide, by decide⟩, ?_⟩
  exact C9_unstudied_scores_higher c9SubU c9SubS wDisc wToday (by decide) (by decide)
    (by decide) (by decide) (by decide) (by decide) 19999 (by decide)

/-! Claim C1: determinism. -/

/-- C1 counterexample: two calls with identical `disciplines`,
`settings` and `today` do not produce identical output.  The second
call starts where the first left off in the `Math.random` stream (the
first call consumed 31 draws for its one uuid), and the study task of
day `today` gets a different id, so the output maps differ. -/
theorem C1_counterexample :
    reorganizeAgenda wRng [wDisc] wSettings wToday 0
      ≠ reorganizeAgenda wRng [wDisc] wSettings wToday 31 := by
  intro h
  exact absurd (congrFun h wToday) (by decide)

/-! The review generator: relating the PRNG-threaded traversal to the
id-free task list `pureReviewTasks`. -/

theorem info_fields {s : AppSettings} {today : Nat} {d : Discipline} {t : Topic}
    {st : Subtopic} {t0 : Task} (h : subtopicReviewInfo s today d t st = some t0) :
    t0.id = "" ∧ t0.subtopicId = st.id ∧ t0.disciplineId = d.id
      ∧ t0.type = TaskType.review ∧ t0.duration = 25 ∧ t0.completed = false
      ∧ t0.notes = none ∧ t0.completionDate = none ∧ t0.confidence = none
      ∧ ∃ rd, reviewDueDate s st = some rd ∧ today ≤ rd ∧ t0.reviewDateStr = some rd := by
  rw [subtopicReviewInfo] at h
  split at h
  · rename_i rd hrd
    split at h
    · rename_i hle
      cases h
      exact ⟨rfl, rfl, rfl, rfl, rfl, rfl, rfl, rfl, rfl, rd, hrd, hle, rfl⟩
    · cases h
  · cases h

theorem info_isSome_eq_emits (s : AppSettings) (today : Nat) (d : Discipline) (t : Topic)
    (st : Subtopic) :
    (subtopicReviewInfo s today d t st).isSome = emitsReview s today st := by
  rw [subtopicReviewInfo, emitsReview]
  split
  · split
    · rename_i hle
      simp [hle]
    · rename_i hle
      simp [hle]
  · rfl

theorem subtopicReview_strip (rng : Nat → Nat) (s : AppSettings) (today : Nat)
    (d : Discipline) (t : Topic) (st : Subtopic) (pos : Nat) :
    (subtopicReview rng s today d t st pos).1.map stripTask
      = (subtopicReviewInfo s today d t st).toList := by
  rw [subtopicReview]
  cases h : subtopicReviewInfo s today d t st with
  | none => rfl
  | some t0 =>
    have hid := (info_fields h).1
    simp only [Option.toList_some, List.map_cons, List.map_nil]
    congr 1
    obtain ⟨tid, f1, f2, f3, f4, f5, f6, f7, f8, f9, f10, f11, f12, f13⟩ := t0
    have hid2 : tid = "" := hid
    subst hid2
    rfl

theorem reviewSubs_strip (rng : Nat → Nat) (s : AppSettings) (today : Nat)
    (d : Discipline) (t : Topic) (sts : List Subtopic) (pos : Nat) :
    (reviewTasksForSubtopics rng s today d t sts pos).1.map stripTask
      = sts.flatMap fun st => (subtopicReviewInfo s today d t st).toList := by
  induction sts generalizing pos with
  | nil => rfl
  | cons st rest ih =>
    rw [reviewTasksForSubtopics]
    simp only [List.map_append, List.flatMap_cons, subtopicReview_strip, ih]

theorem reviewTopics_strip (rng : Nat → Nat) (s : AppSettings) (today : Nat)
    (d : Discipline) (ts : List Topic) (pos : Nat) :
    (reviewTasksForTopics rng s today d ts pos).1.map stripTask
      = ts.flatMap fun t => t.subtopics.flatMap fun st =>
          (subtopicReviewInfo s today d t st).toList := by
  induction ts generalizing pos with
  | nil => rfl
  | cons t rest ih =>
    rw [reviewTasksForTopics]
    simp only [List.map_append, List.flatMap_cons, reviewSubs_strip, ih]

theorem reviewDiscs_strip (rng : Nat → Nat) (s : AppSettings) (today : Nat)
    (ds : List Discipline) (pos : Nat) :
    (reviewTasksForDisciplines rng s today ds pos).1.map stripTask
      = ds.flatMap fun d => d.topics.flatMap fun t => t.subtopics.flatMap fun st =>
          (subtopicReviewInfo s today d t st).toList := by
  induction ds generalizing pos with
  | nil => rfl
  | cons d rest ih =>
    rw [reviewTasksForDisciplines]
    simp only [List.map_append, List.flatMap_cons, reviewTopics_strip, ih]

theorem createReviewTasks_strip (rng : Nat → Nat) (ds : List Discipline) (s : AppSettings)
    (today : Nat) (pos : Nat) :
    (createReviewTasks rng ds s today pos).1.map stripTask = pureReviewTasks ds s today := by
  rw [createReviewTasks, pureReviewTasks]
  by_cases ha : s.autoReview = true
  · rw [if_pos ha, if_pos ha, reviewDiscs_strip]
    simp only [occs, List.flatMap_assoc, List.flatMap_map]
  · rw [if_neg ha, if_neg ha]
    rfl

theorem createReviewTasks_ids (rng : Nat → Nat) (ds : List Discipline) (s : AppSettings)
    (today : Nat) (pos : Nat) :
    (createReviewTasks rng ds s today pos).1.map (fun t => t.subtopicId)
      = (pureReviewTasks ds s today).map fun t => t.subtopicId := by
  rw [← createReviewTasks_strip rng ds s today pos, List.map_map]
  rfl

theorem createReviewTasks_shape (rng : Nat → Nat) (ds : List Discipline) (s : AppSettings)
    (today : Nat) (pos : Nat) :
    ∀ tk ∈ (createReviewTasks rng ds s today pos).1,
      tk.subtopicId ∈ allSubtopicIds ds
        ∧ tk.type = TaskType.review ∧ tk.duration = 25 ∧ tk.completed = false
        ∧ tk.notes = none ∧ tk.completionDate = none ∧ tk.confidence = none
        ∧ ∃ rd, tk.reviewDateStr = some rd ∧ today ≤ rd := by
  intro tk htk
  have hmem : stripTask tk ∈ pureReviewTasks ds s today := by
    rw [← createReviewTasks_strip rng ds s today pos]
    exact List.mem_map_of_mem _ htk
  rw [pureReviewTasks] at hmem
  by_cases ha : s.autoReview = true
  · rw [if_pos ha] at hmem
    obtain ⟨o, ho, hinfo⟩ := List.mem_flatMap.1 hmem
    have hsome : subtopicReviewInfo s today o.discipline o.topic o.st = some (stripTask tk) := by
      cases h : subtopicReviewInfo s today o.discipline o.topic o.st with
      | none => rw [h] at hinfo; cases hinfo
      | some t0 =>
        rw [h, Option.toList_some] at hinfo
        cases hinfo with
        | head => rfl
        | tail _ hmem2 => cases hmem2
    have hf := info_fields hsome
    refine ⟨?_, hf.2.2.2.1, hf.2.2.2.2.1, hf.2.2.2.2.2.1, hf.2.2.2.2.2.2.1,
      hf.2.2.2.2.2.2.2.1, hf.2.2.2.2.2.2.2.2.1, ?_⟩
    · have : tk.subtopicId = o.st.id := hf.2.1
      rw [this, allSubtopicIds]
      exact List.mem_map_of_mem _ ho
    · obtain ⟨rd, _, hle, hrds⟩ := hf.2.2.2.2.2.2.2.2.2
      exact ⟨rd, hrds, hle⟩
  · rw [if_neg ha] at hmem
    cases hmem

theorem pure_flatMap_count (l : List Occ) (s : AppSettings) (today : Nat) (sid : String) :
    countId (l.flatMap fun o => (subtopicReviewInfo s today o.discipline o.topic o.st).toList)
        sid
      = l.countP fun o => decide (o.st.id = sid) && emitsReview s today o.st := by
  induction l with
  | nil => rfl
  | cons o rest ih =>
    rw [List.flatMap_cons, countId, List.countP_append, ← countId, ← countId, ih,
      List.countP_cons]
    have : countId (subtopicReviewInfo s today o.discipline o.topic o.st).toList sid
        = if (decide (o.st.id = sid) && emitsReview s today o.st) = true then 1 else 0 := by
      cases h : subtopicReviewInfo s today o.discipline o.topic o.st with
      | none =>
        have he : emitsReview s today o.st = false := by
          rw [← info_isSome_eq_emits s today o.discipline o.topic o.st, h]
          rfl
        simp [countId, he]
      | some t0 =>
        have he : emitsReview s today o.st = true := by
          rw [← info_isSome_eq_emits s today o.discipline o.topic o.st, h]
          rfl
        have hsub : t0.subtopicId = o.st.id := (info_fields h).2.1
        simp only [Option.toList_some, countId, List.countP_cons, List.countP_nil, hsub, he,
          Bool.and_true]
        by_cases hid : o.st.id = sid <;> simp [hid]
    rw [this]
    omega

theorem pureReviewTasks_countId (ds : List Discipline) (s : AppSettings) (today : Nat)
    (sid : String) :
    countId (pureReviewTasks ds s today) sid
      = if s.autoReview
        then (occs ds).countP fun o => decide (o.st.id = sid) && emitsReview s today o.st
        else 0 := by
  rw [pureReviewTasks]
  by_cases ha : s.autoReview = true
  · rw [if_pos ha, if_pos ha, pure_flatMap_count]
  · rw [if_neg ha, if_neg ha]
    rfl

theorem countId_createReviewTasks (rng : Nat → Nat) (ds : List Discipline) (s : AppSettings)
    (today : Nat) (pos : Nat) (sid : String) :
    countId (createReviewTasks rng ds s today pos).1 sid
      = countId (pureReviewTasks ds s today) sid := by
  rw [countId, countId, ← createReviewTasks_strip rng ds s today pos, List.countP_map]
  rfl

theorem mem_occs {ds : List Discipline} {d : Discipline} {t : Topic} {st : Subtopic}
    (hd : d ∈ ds) (ht : t ∈ d.topics) (hst : st ∈ t.subtopics) :
    (⟨d, t, st⟩ : Occ) ∈ occs ds := by
  rw [occs]
  exact List.mem_flatMap.2 ⟨d, hd, List.mem_flatMap.2 ⟨t, ht, List.mem_map_of_mem _ hst⟩⟩

theorem occs_id_inj {ds : List Discipline} (h : (allSubtopicIds ds).Nodup) :
    ∀ o1 ∈ occs ds, ∀ o2 ∈ occs ds, o1.st.id = o2.st.id → o1 = o2 := by
  rw [allSubtopicIds] at h
  intro o1 h1 o2 h2 heq
  exact List.inj_on_of_nodup_map h h1 h2 heq

/-- The guard of the review generator, written out: with a last-study
date and non-empty history, a review is emitted exactly when the
cadence index is in range and the due date
`lastStudied + max(1, round(baseInterval * confidenceFactor))` is not
before today. -/
theorem emitsReview_iff (s : AppSettings) (today : Nat) (st : Subtopic) (ls : Nat)
    (hls : st.lastStudied = some ls) (hh : 0 < st.history.length) :
    emitsReview s today st = true ↔
      st.history.length - 1 < s.baseCadence.length ∧
        today ≤ ls + (max 1 (roundMulNat (s.baseCadence.getD (st.history.length - 1) 0)
          (if st.confidence ≤ 2 then s.confidenceFactors.low
           else if 4 ≤ st.confidence then s.confidenceFactors.high else 1))).toNat := by
  simp only [emitsReview, reviewDueDate, hls, if_pos hh]
  by_cases hc : st.history.length - 1 < s.baseCadence.length
  · simp only [dif_pos hc]
    have hgetD : s.baseCadence.getD (st.history.length - 1) 0
        = s.baseCadence.get ⟨st.history.length - 1, hc⟩ := by
      simp [List.getD_eq_getElem?_getD, List.getElem?_eq_getElem hc, List.get_eq_getElem]
    rw [hgetD]
    simp only [addDays, decide_eq_true_eq]
    exact ⟨fun h => ⟨hc, h⟩, fun h => h.2⟩
  · simp only [dif_neg hc]
    simp [hc]

/-! Claim C5: the review-cadence generator. -/

/-- C5: with `autoReview` on and globally distinct unit ids, a unit
with non-empty history and a last-study date gets a review task
generated if and only if its cadence index `history.length - 1` is a
valid index into `baseCadence` and the due date
`lastStudied + max(1, round(baseCadence[index] * confidenceFactor))`
is not before today, where the factor is `low` when the most recent
recorded confidence is ≤ 2, `high` when ≥ 4 and 1 otherwise (the
source reads `subtopic.confidence`, which the completion handler keeps
equal to the most recent history entry's confidence — hypothesis
`hsync`); in particular a history longer than the cadence generates
nothing, and every generated review task has duration 25. -/
theorem C5_review_cadence (rng : Nat → Nat) (pos : Nat) (ds : List Discipline)
    (s : AppSettings) (today : Nat) (d : Discipline) (t : Topic) (st : Subtopic) (ls : Nat)
    (hAuto : s.autoReview = true) (hNodup : (allSubtopicIds ds).Nodup)
    (hd : d ∈ ds) (ht : t ∈ d.topics) (hst : st ∈ t.subtopics)
    (hls : st.lastStudied = some ls) (hh : st.history ≠ [])
    (hsync : (st.history.getLast hh).confidence = st.confidence) :
    ((∃ tk ∈ (createReviewTasks rng ds s today pos).1, tk.subtopicId = st.id) ↔
      st.history.length - 1 < s.baseCadence.length ∧
        today ≤ ls + (max 1 (round ((s.baseCadence.getD (st.history.length - 1) 0 : ℚ) *
          (if (st.history.getLast hh).confidence ≤ 2 then s.confidenceFactors.low
           else if 4 ≤ (st.history.getLast hh).confidence then s.confidenceFactors.high
           else 1)))).toNat)
    ∧ ∀ tk ∈ (createReviewTasks rng ds s today pos).1, tk.duration = 25 := by
  have hlen : 0 < st.history.length := List.length_pos.2 hh
  have hocc : (⟨d, t, st⟩ : Occ) ∈ occs ds := mem_occs hd ht hst
  have hcount : countId (createReviewTasks rng ds s today pos).1 st.id
      = (occs ds).countP fun o => decide (o.st.id = st.id) && emitsReview s today o.st := by
    rw [countId_createReviewTasks, pureReviewTasks_countId, if_pos hAuto]
  have hclaim : (st.history.length - 1 < s.baseCadence.length ∧
      today ≤ ls + (max 1 (round ((s.baseCadence.getD (st.history.length - 1) 0 : ℚ) *
        (if (st.history.getLast hh).confidence ≤ 2 then s.confidenceFactors.low
         else if 4 ≤ (st.history.getLast hh).confidence then s.confidenceFactors.high
         else 1)))).toNat)
      ↔ emitsReview s today st = true := by
    rw [emitsReview_iff s today st ls hls hlen, hsync, roundMulNat_eq_round]
  constructor
  · constructor
    · intro hex
      obtain ⟨tk, htk, hsub⟩ := hex
      have hpos : 0 < countId (createReviewTasks rng ds s today pos).1 st.id := by
        rw [countId]
        exact List.countP_pos_iff.2 ⟨tk, htk, by simp [hsub]⟩
      rw [hcount] at hpos
      obtain ⟨o, ho, hb⟩ := List.countP_pos_iff.1 hpos
      have hband := Bool.and_eq_true_iff.1 hb
      have hid : o.st.id = st.id := of_decide_eq_true hband.1
      have hoeq : o = ⟨d, t, st⟩ := occs_id_inj hNodup o ho _ hocc hid
      have hemit : emitsReview s today st = true := by
        have := hband.2
        rw [hoeq] at this
        exact this
      exact hclaim.2 hemit
    · intro hrhs
      have hemit := hclaim.1 hrhs
      have hpos : 0 < (occs ds).countP
          fun o => decide (o.st.id = st.id) && emitsReview s today o.st :=
        List.countP_pos_iff.2 ⟨⟨d, t, st⟩, hocc, by simp [hemit]⟩
      rw [← hcount, countId] at hpos
      obtain ⟨tk, htk, hb⟩ := List.countP_pos_iff.1 hpos
      exact ⟨tk, htk, of_decide_eq_true hb⟩
  · intro tk htk
    exact (createReviewTasks_shape rng ds s today pos tk htk).2.2.1

/-- C5 witness: the cadence theorem applied to a concrete unit with
one completed study. -/
theorem C5_witness :
    (c2Settings.autoReview = true ∧ (allSubtopicIds [c2Disc]).Nodup
      ∧ c2Disc ∈ [c2Disc] ∧ c2Top ∈ c2Disc.topics ∧ c2Sub1 ∈ c2Top.subtopics
      ∧ c2Sub1.lastStudied = some 20000 ∧ c2Sub1.history ≠ []
      ∧ (c2Sub1.history.getLast (by decide)).confidence = c2Sub1.confidence)
    ∧ ∀ tk ∈ (createReviewTasks wRng [c2Disc] c2Settings wToday 0).1, tk.duration = 25 := by
  refine ⟨⟨by decide, by decide, by decide, by decide, by decide, by decide, by decide,
    by decide⟩, ?_⟩
  exact (C5_review_cadence wRng 0 [c2Disc] c2Settings wToday c2Disc c2Top c2Sub1 20000
    (by decide) (by decide) (by decide) (by decide) (by decide) (by decide) (by decide)
    (by decide)).2

/-! Pointwise task-predicate preservation through the scheduler: any
property that holds of every generated review task and of every built
study task holds of every task in the output. -/

theorem fillLoop_taskPred (Q : Task → Prop) (hmk : ∀ i c, Q (mkStudyTask i c))
    (rng : Nat → Nat) (s : AppSettings) (fuel : Nat) (tasks : List Task) (ts : Nat)
    (counts : String → Nat) (cands : List Candidate) (idx pos : Nat)
    (h : ∀ tk ∈ tasks, Q tk) :
    ∀ tk ∈ (fillLoop rng s fuel tasks ts counts cands idx pos).1, Q tk := by
  induction fuel generalizing tasks ts counts cands idx pos with
  | zero => exact h
  | succ fuel ih =>
    rw [fillLoop]
    split
    · split
      · split
        · refine ih _ _ _ _ _ _ ?_
          intro tk htk
          rcases List.mem_append.1 htk with h1 | h2
          · exact h tk h1
          · rw [List.mem_singleton.1 h2]
            exact hmk _ _
        · exact ih _ _ _ _ _ _ h
      · exact h
    · exact h

theorem place_taskPred (Q : Task → Prop) (s : AppSettings)
    {plans : Nat → Option DailyPlan}
    (hinv : ∀ x p, plans x = some p → ∀ tk ∈ p.tasks, Q tk)
    {task : Task} (htask : Q task) :
    ∀ x p, placeReviewTask s plans task x = some p → ∀ tk ∈ p.tasks, Q tk := by
  intro x p hp
  cases htr : task.reviewDateStr with
  | none =>
    simp only [placeReviewTask, htr] at hp
    exact hinv x p hp
  | some rd =>
    cases hrd : plans rd with
    | none =>
      simp only [placeReviewTask, htr, hrd] at hp
      exact hinv x p hp
    | some dayPlan =>
      by_cases hrest : dayPlan.isRestDay = true
      · simp only [placeReviewTask, htr, hrd, if_pos hrest] at hp
        exact hinv x p hp
      · by_cases hfit : sumDur dayPlan.tasks + task.duration ≤ s.dailyStudyMinutes
            ∧ reviewCount dayPlan.tasks < s.maxReviewsPerDay
        · simp only [placeReviewTask, htr, hrd, if_neg hrest, if_pos hfit,
            setPlan_apply] at hp
          by_cases hx : x = rd
          · rw [if_pos hx] at hp
            cases hp
            intro tk htk
            rcases List.mem_append.1 htk with h1 | h2
            · exact hinv rd dayPlan hrd tk h1
            · rw [List.mem_singleton.1 h2]
              exact htask
          · rw [if_neg hx] at hp
            exact hinv x p hp
        · simp only [placeReviewTask, htr, hrd, if_neg hrest, if_neg hfit] at hp
          exact hinv x p hp

theorem placeFold_taskPred (Q : Task → Prop) (s : AppSettings) (R : List Task)
    {plans : Nat → Option DailyPlan}
    (hinv : ∀ x p, plans x = some p → ∀ tk ∈ p.tasks, Q tk)
    (hR : ∀ tk ∈ R, Q tk) :
    ∀ x p, (R.foldl (placeReviewTask s) plans) x = some p → ∀ tk ∈ p.tasks, Q tk := by
  induction R generalizing plans with
  | nil => exact hinv
  | cons t rest ih =>
    rw [List.foldl_cons]
    exact ih (place_taskPred Q s hinv (hR t (List.mem_cons_self _ _))) fun tk htk =>
      hR tk (List.mem_cons_of_mem _ htk)

theorem fillDays_taskPred (Q : Task → Prop) (hmk : ∀ i c, Q (mkStudyTask i c))
    (rng : Nat → Nat) (s : AppSettings) (today : Nat) (k i : Nat)
    {plans : Nat → Option DailyPlan}
    (hinv : ∀ x p, plans x = some p → ∀ tk ∈ p.tasks, Q tk)
    (cands : List Candidate) (pos : Nat) :
    ∀ x p, (fillDays rng s today k i plans cands pos).1 x = some p →
      ∀ tk ∈ p.tasks, Q tk := by
  induction k generalizing i plans cands pos with
  | zero => exact hinv
  | succ k ih =>
    cases hday : plans (addDays today i) with
    | none =>
      simp only [fillDays, hday]
      exact ih (i + 1) hinv cands pos
    | some dayPlan =>
      by_cases hrest : dayPlan.isRestDay = true
      · simp only [fillDays, hday, if_pos hrest]
        exact ih (i + 1) hinv cands pos
      · simp only [fillDays, hday, if_neg hrest]
        refine ih (i + 1) ?_ _ _
        intro x p hp
        rw [setPlan_apply] at hp
        by_cases hx : x = addDays today i
        · rw [if_pos hx] at hp
          cases hp
          exact fillLoop_taskPred Q hmk rng s _ _ _ _ _ _ _
            fun tk htk => hinv _ dayPlan hday tk htk
        · rw [if_neg hx] at hp
          exact hinv x p hp

theorem reorganizeAgenda_taskPred (Q : Task → Prop) (rng : Nat → Nat)
    (ds : List Discipline) (s : AppSettings) (today pos : Nat)
    (hmk : ∀ i c, Q (mkStudyTask i c))
    (hrev : ∀ tk ∈ (createReviewTasks rng ds s today pos).1, Q tk) :
    ∀ x p, reorganizeAgenda rng ds s today pos x = some p → ∀ tk ∈ p.tasks, Q tk := by
  intro x p hp
  rw [reorganizeAgenda] at hp
  split at hp
  · rw [emptyPlans] at hp
    cases hp
  · have hinit : ∀ x p, initPlans s today x = some p → ∀ tk ∈ p.tasks, Q tk := by
      intro x p hp2
      rw [initPlans_apply] at hp2
      split at hp2
      · cases hp2
        intro tk htk
        cases htk
      · cases hp2
    exact fillDays_taskPred Q hmk rng s today planningHorizon 0
      (placeFold_taskPred Q s _ hinit hrev) _ _ x p hp

/-! Claim C10: every task of every returned plan is fresh. -/

/-- C10: every task in every DailyPlan returned by `reorganizeAgenda`
has `completed = false` and carries no `completionDate`, `confidence`
or `notes` — so a re-plan (in particular the auto-replan after
completing a task) never returns a plan with a completed task. -/
theorem C10_tasks_fresh (rng : Nat → Nat) (ds : List Discipline) (s : AppSettings)
    (today pos x : Nat) (p : DailyPlan) (tk : Task)
    (hp : reorganizeAgenda rng ds s today pos x = some p) (htk : tk ∈ p.tasks) :
    tk.completed = false ∧ tk.notes = none ∧ tk.completionDate = none
      ∧ tk.confidence = none := by
  refine reorganizeAgenda_taskPred TaskClean rng ds s today pos ?_ ?_ x p hp tk htk
  · intro i c
    exact ⟨rfl, rfl, rfl, rfl⟩
  · intro tk2 htk2
    have h := createReviewTasks_shape rng ds s today pos tk2 htk2
    exact ⟨h.2.2.2.1, h.2.2.2.2.1, h.2.2.2.2.2.1, h.2.2.2.2.2.2.1⟩

/-- C10 witness: the freshness theorem applied to the study task of a
concrete run. -/
theorem C10_witness :
    ((reorganizeAgenda wRng [wDisc] wSettings wToday 0) wToday = some w3plan
      ∧ w10task ∈ w3plan.tasks)
    ∧ (w10task.completed = false ∧ w10task.notes = none ∧ w10task.completionDate = none
      ∧ w10task.confidence = none) := by
  refine ⟨⟨by decide, by decide⟩, ?_⟩
  exact C10_tasks_fresh wRng [wDisc] wSettings wToday 0 wToday w3plan w10task
    (by decide) (by decide)

/-! Claim C3: the daily minute budget is a hard ceiling. -/

theorem sumDur_single (t : Task) : sumDur [t] = t.duration := by
  simp [sumDur]

theorem fillLoop_sum (rng : Nat → Nat) (s : AppSettings) (fuel : Nat) (tasks : List Task)
    (ts : Nat) (counts : String → Nat) (cands : List Candidate) (idx pos : Nat)
    (hts : ts = sumDur tasks) (hle : sumDur tasks ≤ s.dailyStudyMinutes) :
    sumDur (fillLoop rng s fuel tasks ts counts cands idx pos).1 ≤ s.dailyStudyMinutes := by
  induction fuel generalizing tasks ts counts cands idx pos with
  | zero => exact hle
  | succ fuel ih =>
    rw [fillLoop]
    split
    · split
      · split
        · rename_i hlt c hc hfit
          refine ih _ _ _ _ _ _ ?_ ?_
          · rw [sumDur_append, sumDur_single, hts]
            rfl
          · rw [sumDur_append, sumDur_single, ← hts]
            exact hfit.1
        · exact ih _ _ _ _ _ _ hts hle
      · exact hle
    · exact hle

theorem place_sumOk (s : AppSettings) {plans : Nat → Option DailyPlan}
    (hinv : ∀ x p, plans x = some p →
      p.isRestDay = false → sumDur p.tasks ≤ s.dailyStudyMinutes) (task : Task) :
    ∀ x p, placeReviewTask s plans task x = some p →
      p.isRestDay = false → sumDur p.tasks ≤ s.dailyStudyMinutes := by
  intro x p hp
  cases htr : task.reviewDateStr with
  | none =>
    simp only [placeReviewTask, htr] at hp
    exact hinv x p hp
  | some rd =>
    cases hrd : plans rd with
    | none =>
      simp only [placeReviewTask, htr, hrd] at hp
      exact hinv x p hp
    | some dayPlan =>
      by_cases hrest : dayPlan.isRestDay = true
      · simp only [placeReviewTask, htr, hrd, if_pos hrest] at hp
        exact hinv x p hp
      · by_cases hfit : sumDur dayPlan.tasks + task.duration ≤ s.dailyStudyMinutes
            ∧ reviewCount dayPlan.tasks < s.maxReviewsPerDay
        · simp only [placeReviewTask, htr, hrd, if_neg hrest, if_pos hfit,
            setPlan_apply] at hp
          by_cases hx : x = rd
          · rw [if_pos hx] at hp
            cases hp
            intro _
            rw [sumDur_append, sumDur_single]
            exact hfit.1
          · rw [if_neg hx] at hp
            exact hinv x p hp
        · simp only [placeReviewTask, htr, hrd, if_neg hrest, if_neg hfit] at hp
          exact hinv x p hp

theorem placeFold_sumOk (s : AppSettings) (R : List Task) {plans : Nat → Option DailyPlan}
    (hinv : ∀ x p, plans x = some p →
      p.isRestDay = false → sumDur p.tasks ≤ s.dailyStudyMinutes) :
    ∀ x p, (R.foldl (placeReviewTask s) plans) x = some p →
      p.isRestDay = false → sumDur p.tasks ≤ s.dailyStudyMinutes := by
  induction R generalizing plans with
  | nil => exact hinv
  | cons t rest ih =>
    rw [List.foldl_cons]
    exact ih (place_sumOk s hinv t)

theorem fillDays_sumOk (rng : Nat → Nat) (s : AppSettings) (today : Nat) (k i : Nat)
    {plans : Nat → Option DailyPlan}
    (hinv : ∀ x p, plans x = some p →
      p.isRestDay = false → sumDur p.tasks ≤ s.dailyStudyMinutes)
    (cands : List Candidate) (pos : Nat) :
    ∀ x p, (fillDays rng s today k i plans cands pos).1 x = some p →
      p.isRestDay = false → sumDur p.tasks ≤ s.dailyStudyMinutes := by
  induction k generalizing i plans cands pos with
  | zero => exact hinv
  | succ k ih =>
    cases hday : plans (addDays today i) with
    | none =>
      simp only [fillDays, hday]
      exact ih (i + 1) hinv cands pos
    | some dayPlan =>
      by_cases hrest : dayPlan.isRestDay = true
      · simp only [fillDays, hday, if_pos hrest]
        exact ih (i + 1) hinv cands pos
      · simp only [fillDays, hday, if_neg hrest]
        refine ih (i + 1) ?_ _ _
        intro x p hp
        rw [setPlan_apply] at hp
        by_cases hx : x = addDays today i
        · rw [if_pos hx] at hp
          cases hp
          intro _
          exact fillLoop_sum rng s _ _ _ _ _ _ _ rfl
            (hinv _ dayPlan hday (by simpa using hrest))
        · rw [if_neg hx] at hp
          exact hinv x p hp

/-- C3: on every non-rest day of the output the total of the task
durations is at most `dailyStudyMinutes`, and every task keeps its
full fixed duration (25-minute review or 45-minute study) — a task
that would exceed the budget is left out, never truncated. -/
theorem C3_capacity (rng : Nat → Nat) (ds : List Discipline) (s : AppSettings)
    (today pos x : Nat) (p : DailyPlan)
    (hp : reorganizeAgenda rng ds s today pos x = some p) (hrest : p.isRestDay = false) :
    sumDur p.tasks ≤ s.dailyStudyMinutes
      ∧ ∀ tk ∈ p.tasks, tk.duration = 25 ∨ tk.duration = 45 := by
  constructor
  · rw [reorganizeAgenda] at hp
    split at hp
    · rw [emptyPlans] at hp
      cases hp
    · have hinit : ∀ x p, initPlans s today x = some p →
          p.isRestDay = false → sumDur p.tasks ≤ s.dailyStudyMinutes := by
        intro x p hp2
        rw [initPlans_apply] at hp2
        split at hp2
        · cases hp2
          intro _
          exact Nat.zero_le _
        · cases hp2
      exact fillDays_sumOk rng s today planningHorizon 0
        (placeFold_sumOk s _ hinit) _ _ x p hp hrest
  · refine reorganizeAgenda_taskPred DurOk rng ds s today pos ?_ ?_ x p hp
    · intro i c
      exact Or.inr rfl
    · intro tk2 htk2
      exact Or.inl (createReviewTasks_shape rng ds s today pos tk2 htk2).2.2.1

/-- C3 witness: the capacity theorem applied to a concrete run. -/
theorem C3_witness :
    ((reorganizeAgenda wRng [wDisc] wSettings wToday 0) wToday = some w3plan
      ∧ w3plan.isRestDay = false)
    ∧ (sumDur w3plan.tasks ≤ wSettings.dailyStudyMinutes
      ∧ ∀ tk ∈ w3plan.tasks, tk.duration = 25 ∨ tk.duration = 45) := by
  refine ⟨⟨by decide, by decide⟩, ?_⟩
  exact C3_capacity wRng [wDisc] wSettings wToday 0 wToday w3plan (by decide) (by decide)

/-! Claim C2: the per-discipline per-day cap. -/

theorem countDisc_eq_reviewCountDisc {tasks : List Task}
    (h : ∀ tk ∈ tasks, tk.type = TaskType.review) (D : String) :
    countDisc tasks D = reviewCountDisc tasks D := by
  rw [countDisc, reviewCountDisc]
  apply List.countP_congr
  intro tk htk
  simp [h tk htk]

theorem countDisc_study_append (tasks : List Task) (i : String) (c : Candidate) (D : String) :
    countDisc (tasks ++ [mkStudyTask i c]) D
      = countDisc tasks D + if c.discipline.id = D then 1 else 0 := by
  rw [countDisc_append]
  by_cases h : c.discipline.id = D <;> simp [countDisc, mkStudyTask, h]

theorem reviewCountDisc_study_append (tasks : List Task) (i : String) (c : Candidate)
    (D : String) :
    reviewCountDisc (tasks ++ [mkStudyTask i c]) D = reviewCountDisc tasks D := by
  rw [reviewCountDisc_append]
  simp [reviewCountDisc, mkStudyTask]

theorem fillLoop_discCap (rng : Nat → Nat) (s : AppSettings) (fuel : Nat)
    (tasks : List Task) (ts : Nat) (counts : String → Nat) (cands : List Candidate)
    (idx pos : Nat) (hc : ∀ D, counts D = countDisc tasks D) :
    ∀ D, countDisc (fillLoop rng s fuel tasks ts counts cands idx pos).1 D
      ≤ max (countDisc tasks D) s.maxTasksPerDisciplinePerDay := by
  induction fuel generalizing tasks ts counts cands idx pos with
  | zero => exact fun D => le_max_left _ _
  | succ fuel ih =>
    rw [fillLoop]
    split
    · split
      · split
        · rename_i hlt c hcand hfit
          intro D
          have hc2 : ∀ D, bumpCount counts c.discipline.id D
              = countDisc (tasks ++ [mkStudyTask (uuidv4 rng pos).1 c]) D := by
            intro D
            rw [countDisc_study_append, bumpCount]
            by_cases h : D = c.discipline.id
            · rw [if_pos h, if_pos h.symm, hc, h]
            · rw [if_neg h, if_neg fun h2 => h h2.symm, hc]
              omega
          refine le_trans (ih _ _ _ _ _ _ hc2 D) ?_
          rw [countDisc_study_append]
          by_cases h : c.discipline.id = D
          · rw [if_pos h]
            have : countDisc tasks D + 1 ≤ s.maxTasksPerDisciplinePerDay := by
              have := hfit.2
              rw [hc, h] at this
              omega
            omega
          · rw [if_neg h]
            omega
        · exact ih _ _ _ _ _ _ hc
      · exact fun D => le_max_left _ _
    · exact fun D => le_max_left _ _

theorem fillLoop_revCount (rng : Nat → Nat) (s : AppSettings) (fuel : Nat)
    (tasks : List Task) (ts : Nat) (counts : String → Nat) (cands : List Candidate)
    (idx pos : Nat) :
    ∀ D, reviewCountDisc (fillLoop rng s fuel tasks ts counts cands idx pos).1 D
      = reviewCountDisc tasks D := by
  induction fuel generalizing tasks ts counts cands idx pos with
  | zero => exact fun D => rfl
  | succ fuel ih =>
    rw [fillLoop]
    split
    · split
      · split
        · intro D
          rw [ih]
          exact reviewCountDisc_study_append _ _ _ _
        · exact ih _ _ _ _ _ _
      · exact fun D => rfl
    · exact fun D => rfl

theorem fillDays_discCap (rng : Nat → Nat) (s : AppSettings) (today : Nat) (k i : Nat)
    {plans : Nat → Option DailyPlan}
    (hinv : ∀ x p, plans x = some p → ∀ D,
      countDisc p.tasks D ≤ max (reviewCountDisc p.tasks D) s.maxTasksPerDisciplinePerDay)
    (cands : List Candidate) (pos : Nat) :
    ∀ x p, (fillDays rng s today k i plans cands pos).1 x = some p → ∀ D,
      countDisc p.tasks D
        ≤ max (reviewCountDisc p.tasks D) s.maxTasksPerDisciplinePerDay := by
  induction k generalizing i plans cands pos with
  | zero => exact hinv
  | succ k ih =>
    cases hday : plans (addDays today i) with
    | none =>
      simp only [fillDays, hday]
      exact ih (i + 1) hinv cands pos
    | some dayPlan =>
      by_cases hrest : dayPlan.isRestDay = true
      · simp only [fillDays, hday, if_pos hrest]
        exact ih (i + 1) hinv cands pos
      · simp only [fillDays, hday, if_neg hrest]
        refine ih (i + 1) ?_ _ _
        intro x p hp
        rw [setPlan_apply] at hp
        by_cases hx : x = addDays today i
        · rw [if_pos hx] at hp
          cases hp
          intro D
          have h1 := fillLoop_discCap rng s cands.length dayPlan.tasks
            (sumDur dayPlan.tasks) (countByDiscipline dayPlan.tasks) cands 0 pos
            (fun D => countByDiscipline_eq dayPlan.tasks D) D
          have h2 := fillLoop_revCount rng s cands.length dayPlan.tasks
            (sumDur dayPlan.tasks) (countByDiscipline dayPlan.tasks) cands 0 pos D
          have h3 := hinv _ dayPlan hday D
          simp only [h2]
          omega
        · rw [if_neg hx] at hp
          exact hinv x p hp

/-- C2 counterexample: with `maxTasksPerDisciplinePerDay = 1` but two
review tasks of the same discipline due on the same (non-rest) day,
the day ends up with 2 tasks of that discipline: review placement only
checks the minute budget and `maxReviewsPerDay`, not the per-discipline
cap. -/
theorem C2_counterexample :
    (((reorganizeAgenda wRng [c2Disc] c2Settings wToday 0) 20001).map fun p =>
      decide (p.isRestDay = false
        ∧ c2Settings.maxTasksPerDisciplinePerDay < countDisc p.tasks "mat")).getD false
      = true := by
  decide

/-- C2 (amended): for every day and every discipline D, the number of
tasks of D that day is at most the larger of the per-discipline cap
and the number of *review* tasks of D that day.  (The greedy study
fill respects `maxTasksPerDisciplinePerDay`, counting the already
placed reviews; review placement itself is not checked against the
cap, which is what the counterexample exploits.) -/
theorem C2_discipline_cap (rng : Nat → Nat) (ds : List Discipline) (s : AppSettings)
    (today pos x : Nat) (p : DailyPlan) (D : String)
    (hp : reorganizeAgenda rng ds s today pos x = some p) :
    countDisc p.tasks D ≤ max (reviewCountDisc p.tasks D) s.maxTasksPerDisciplinePerDay := by
  rw [reorganizeAgenda] at hp
  split at hp
  · rw [emptyPlans] at hp
    cases hp
  · have hinit : ∀ x p, initPlans s today x = some p → ∀ tk ∈ p.tasks,
        tk.type = TaskType.review := by
      intro x p hp2
      rw [initPlans_apply] at hp2
      split at hp2
      · cases hp2
        intro tk htk
        cases htk
      · cases hp2
    have hall := placeFold_taskPred (fun tk => tk.type = TaskType.review) s _ hinit
      fun tk htk => (createReviewTasks_shape rng ds s today pos tk htk).2.1
    refine fillDays_discCap rng s today planningHorizon 0 ?_ _ _ x p hp D
    intro x2 p2 hp2 D2
    rw [countDisc_eq_reviewCountDisc (hall x2 p2 hp2) D2]
    exact le_max_left _ _

/-- C2 witness: the amended bound applied to the concrete
two-review day. -/
theorem C2_witness :
    ((reorganizeAgenda wRng [c2Disc] c2Settings wToday 0) 20001 = some c2plan)
    ∧ countDisc c2plan.tasks "mat"
        ≤ max (reviewCountDisc c2plan.tasks "mat")
            c2Settings.maxTasksPerDisciplinePerDay := by
  refine ⟨by decide, ?_⟩
  exact C2_discipline_cap wRng [c2Disc] c2Settings wToday 0 20001 c2plan "mat" (by decide)

/-! Claim C7: the output covers exactly the 90-day horizon. -/

/-- C7: for a non-empty disciplines list the returned record holds
exactly one plan for each date of `[today, today + 89]`, keyed by and
carrying that date, and nothing else; for an empty disciplines list it
is the empty record.  (The function is total — there is no error
path.) -/
theorem C7_horizon (rng : Nat → Nat) (ds : List Discipline) (s : AppSettings)
    (today pos : Nat) :
    (ds = [] → ∀ x, reorganizeAgenda rng ds s today pos x = none) ∧
    (ds ≠ [] → ∀ x,
      (today ≤ x ∧ x < today + planningHorizon →
        ∃ p, reorganizeAgenda rng ds s today pos x = some p ∧ p.date = x) ∧
      (¬(today ≤ x ∧ x < today + planningHorizon) →
        reorganizeAgenda rng ds s today pos x = none)) := by
  constructor
  · intro h x
    subst h
    rfl
  · intro h
    have hshape : PlansShape today (reorganizeAgenda rng ds s today pos) := by
      rw [reorganizeAgenda,
        if_neg (fun hc : ds.isEmpty = true => h (List.isEmpty_iff.mp hc))]
      exact plansShape_fillDays rng s planningHorizon 0
        (plansShape_placeFold s (plansShape_init s today) _) _ _
    intro x
    exact hshape x

/-- C7 witness: the horizon theorem applied to a concrete run and an
in-horizon date. -/
theorem C7_witness :
    (([wDisc] : List Discipline) ≠ []
      ∧ wToday ≤ wToday + 5 ∧ wToday + 5 < wToday + planningHorizon)
    ∧ ∃ p, (reorganizeAgenda wRng [wDisc] wSettings wToday 0) (wToday + 5) = some p
        ∧ p.date = wToday + 5 := by
  refine ⟨⟨by decide, by decide, by decide⟩, ?_⟩
  exact ((C7_horizon wRng [wDisc] wSettings wToday 0).2 (by decide) (wToday + 5)).1
    ⟨by decide, by decide⟩

/-! Claim C4: no unit is scheduled twice.  The accounting invariant:
the number of tasks of a given unit id across the horizon plus the
number of candidates of that id left in the pool never grows. -/

theorem countP_eraseIdx {α : Type} (p : α → Bool) (l : List α) :
    ∀ (i : Nat) (c : α), l[i]? = some c →
      l.countP p = (l.eraseIdx i).countP p + if p c then 1 else 0 := by
  induction l with
  | nil =>
    intro i c h
    simp at h
  | cons x tl ih =>
    intro i c h
    cases i with
    | zero =>
      rw [List.getElem?_cons_zero] at h
      cases h
      rw [List.eraseIdx_cons_zero, List.countP_cons]
    | succ i =>
      rw [List.getElem?_cons_succ] at h
      rw [List.eraseIdx_cons_succ, List.countP_cons, List.countP_cons, ih i c h]
      omega

theorem sum_update (g g' : Nat → Nat) (n j : Nat) (hj : j < n)
    (hoff : ∀ i, i ≠ j → g' i = g i) :
    ((List.range n).map g').sum + g j = ((List.range n).map g).sum + g' j := by
  induction n with
  | zero => omega
  | succ n ih =>
    rw [List.range_succ, List.map_append, List.map_append, List.sum_append, List.sum_append]
    simp only [List.map_cons, List.map_nil, List.sum_cons, List.sum_nil]
    by_cases hjn : j = n
    · subst hjn
      have heq : (List.range j).map g' = (List.range j).map g :=
        List.map_congr_left fun a ha => hoff a (by have := List.mem_range.1 ha; omega)
      rw [heq]
      omega
    · have h1 := ih (by omega)
      have h2 := hoff n fun h => hjn h.symm
      omega

theorem windowCount_setPlan (plans : Nat → Option DailyPlan) (today j : Nat)
    (p' : DailyPlan) (sid : String) (hj : j < planningHorizon) :
    windowCount (setPlan plans (addDays today j) p') today sid
        + countId (dayTasks plans (addDays today j)) sid
      = windowCount plans today sid + countId p'.tasks sid := by
  have hoff : ∀ i, i ≠ j →
      countId (dayTasks (setPlan plans (addDays today j) p') (addDays today i)) sid
        = countId (dayTasks plans (addDays today i)) sid := by
    intro i hij
    rw [dayTasks, setPlan_apply, if_neg (by simp only [addDays]; omega)]
    rfl
  have h := sum_update (fun i => countId (dayTasks plans (addDays today i)) sid)
    (fun i => countId (dayTasks (setPlan plans (addDays today j) p') (addDays today i)) sid)
    planningHorizon j hj hoff
  have h' : ((List.range planningHorizon).map fun i =>
        countId (dayTasks (setPlan plans (addDays today j) p') (addDays today i)) sid).sum
        + countId (dayTasks plans (addDays today j)) sid
      = ((List.range planningHorizon).map fun i =>
          countId (dayTasks plans (addDays today i)) sid).sum
        + countId (dayTasks (setPlan plans (addDays today j) p') (addDays today j)) sid := h
  have hgj : countId (dayTasks (setPlan plans (addDays today j) p') (addDays today j)) sid
      = countId p'.tasks sid := by
    rw [dayTasks, setPlan_apply, if_pos rfl]
    rfl
  rw [hgj] at h'
  exact h'

theorem countId_flatMap (l : List Nat) (f : Nat → List Task) (sid : String) :
    countId (l.flatMap f) sid = (l.map fun i => countId (f i) sid).sum := by
  induction l with
  | nil => rfl
  | cons i rest ih =>
    rw [List.flatMap_cons, countId, List.countP_append, List.map_cons, List.sum_cons,
      ← countId, ← countId, ih]

theorem countId_tasksInWindow (plans : Nat → Option DailyPlan) (today : Nat)
    (sid : String) :
    countId (tasksInWindow plans today) sid = windowCount plans today sid := by
  rw [tasksInWindow, windowCount, countId_flatMap]

theorem windowCount_init (s : AppSettings) (today : Nat) (sid : String) :
    windowCount (initPlans s today) today sid = 0 := by
  rw [windowCount]
  apply List.sum_eq_zero
  intro x hx
  obtain ⟨i, hi, rfl⟩ := List.mem_map.1 hx
  have hi90 := List.mem_range.1 hi
  have hday : dayTasks (initPlans s today) (addDays today i) = [] := by
    rw [dayTasks, initPlans_apply, if_pos (by simp only [addDays]; omega)]
    rfl
  rw [hday]
  rfl

theorem countId_mk_study (i : String) (c : Candidate) (sid : String) :
    countId [mkStudyTask i c] sid = if decide (c.st.id = sid) = true then 1 else 0 := by
  simp [countId, mkStudyTask, List.countP_cons]

theorem fillLoop_idBalance (rng : Nat → Nat) (s : AppSettings) (fuel : Nat)
    (tasks : List Task) (ts : Nat) (counts : String → Nat) (cands : List Candidate)
    (idx pos : Nat) (sid : String) :
    countId (fillLoop rng s fuel tasks ts counts cands idx pos).1 sid
        + candCount (fillLoop rng s fuel tasks ts counts cands idx pos).2.1 sid
      = countId tasks sid + candCount cands sid := by
  induction fuel generalizing tasks ts counts cands idx pos with
  | zero => rfl
  | succ fuel ih =>
    rw [fillLoop]
    split
    · split
      · split
        · rename_i hlt c hcand hfit
          rw [ih]
          have h1 : countId (tasks ++ [mkStudyTask (uuidv4 rng pos).1 c]) sid
              = countId tasks sid + if decide (c.st.id = sid) = true then 1 else 0 := by
            rw [countId_append, countId_mk_study]
          have h2 : candCount cands sid
              = candCount (cands.eraseIdx idx) sid
                + if decide (c.st.id = sid) = true then 1 else 0 := by
            rw [candCount, candCount]
            exact countP_eraseIdx _ cands idx c hcand
          omega
        · exact ih _ _ _ _ _ _
      · rfl
    · rfl

theorem fillDays_idBalance (rng : Nat → Nat) (s : AppSettings) (today : Nat) (k i : Nat)
    (plans : Nat → Option DailyPlan) (cands : List Candidate) (pos : Nat) (sid : String)
    (hik : i + k ≤ planningHorizon) :
    windowCount (fillDays rng s today k i plans cands pos).1 today sid
        + candCount (fillDays rng s today k i plans cands pos).2.1 sid
      = windowCount plans today sid + candCount cands sid := by
  induction k generalizing i plans cands pos with
  | zero => rfl
  | succ k ih =>
    cases hday : plans (addDays today i) with
    | none =>
      simp only [fillDays, hday]
      exact ih (i + 1) plans cands pos (by omega)
    | some dayPlan =>
      by_cases hrest : dayPlan.isRestDay = true
      · simp only [fillDays, hday, if_pos hrest]
        exact ih (i + 1) plans cands pos (by omega)
      · simp only [fillDays, hday, if_neg hrest]
        set r := fillLoop rng s cands.length dayPlan.tasks (sumDur dayPlan.tasks)
          (countByDiscipline dayPlan.tasks) cands 0 pos with hr
        have h1 := ih (i + 1)
          (setPlan plans (addDays today i) { dayPlan with tasks := r.1 }) r.2.1 r.2.2
          (by omega)
        have h2 := windowCount_setPlan plans today i { dayPlan with tasks := r.1 } sid
          (by omega)
        rw [show ({ dayPlan with tasks := r.1 } : DailyPlan).tasks = r.1 from rfl] at h2
        have h3 := fillLoop_idBalance rng s cands.length dayPlan.tasks
          (sumDur dayPlan.tasks) (countByDiscipline dayPlan.tasks) cands 0 pos sid
        have h4 : dayTasks plans (addDays today i) = dayPlan.tasks := by
          rw [dayTasks, hday]
          rfl
        rw [h4] at h2
        rw [← hr] at h3
        omega

theorem place_windowCount (s : AppSettings) {today : Nat} {plans : Nat → Option DailyPlan}
    (hshape : PlansShape today plans) (task : Task) (sid : String) :
    windowCount (placeReviewTask s plans task) today sid
      ≤ windowCount plans today sid + if decide (task.subtopicId = sid) = true then 1
          else 0 := by
  cases htr : task.reviewDateStr with
  | none =>
    simp only [placeReviewTask, htr]
    omega
  | some rd =>
    cases hrd : plans rd with
    | none =>
      simp only [placeReviewTask, htr, hrd]
      omega
    | some dayPlan =>
      by_cases hrest : dayPlan.isRestDay = true
      · simp only [placeReviewTask, htr, hrd, if_pos hrest]
        omega
      · by_cases hfit : sumDur dayPlan.tasks + task.duration ≤ s.dailyStudyMinutes
            ∧ reviewCount dayPlan.tasks < s.maxReviewsPerDay
        · simp only [placeReviewTask, htr, hrd, if_neg hrest, if_pos hfit]
          have hwin : today ≤ rd ∧ rd < today + planningHorizon := by
            by_contra hc
            rw [(hshape rd).2 hc] at hrd
            cases hrd
          have hrd2 : rd = addDays today (rd - today) := by
            simp only [addDays]
            omega
          have h2 := windowCount_setPlan plans today (rd - today)
            { dayPlan with tasks := dayPlan.tasks ++ [task] } sid (by omega)
          rw [show ({ dayPlan with tasks := dayPlan.tasks ++ [task] } : DailyPlan).tasks
            = dayPlan.tasks ++ [task] from rfl] at h2
          rw [← hrd2] at h2
          have h3 : dayTasks plans rd = dayPlan.tasks := by
            rw [dayTasks, hrd]
            rfl
          rw [h3] at h2
          have h4 : countId (dayPlan.tasks ++ [task]) sid
              = countId dayPlan.tasks sid
                + if decide (task.subtopicId = sid) = true then 1 else 0 := by
            rw [countId_append]
            simp [countId, List.countP_cons]
          omega
        · simp only [placeReviewTask, htr, hrd, if_neg hrest, if_neg hfit]
          omega

theorem placeFold_windowCount (s : AppSettings) {today : Nat} (R : List Task)
    {plans : Nat → Option DailyPlan} (hshape : PlansShape today plans) (sid : String) :
    windowCount (R.foldl (placeReviewTask s) plans) today sid
      ≤ windowCount plans today sid + countId R sid := by
  induction R generalizing plans with
  | nil =>
    rw [List.foldl_nil]
    simp [countId]
  | cons t rest ih =>
    rw [List.foldl_cons]
    have h1 := ih (plansShape_place s hshape t)
    have h2 := place_windowCount s hshape t sid
    have h3 : countId (t :: rest) sid
        = countId rest sid + if decide (t.subtopicId = sid) = true then 1 else 0 := by
      rw [countId, List.countP_cons, ← countId]
    omega

theorem countP_add_le_of_disjoint {α : Type} (l : List α) (p q r : α → Bool)
    (hp : ∀ x ∈ l, p x = true → r x = true) (hq : ∀ x ∈ l, q x = true → r x = true)
    (hpq : ∀ x ∈ l, ¬(p x = true ∧ q x = true)) :
    l.countP p + l.countP q ≤ l.countP r := by
  induction l with
  | nil => simp
  | cons x tl ih =>
    rw [List.countP_cons, List.countP_cons, List.countP_cons]
    have ihtl := ih (fun y hy => hp y (List.mem_cons_of_mem _ hy))
      (fun y hy => hq y (List.mem_cons_of_mem _ hy))
      (fun y hy => hpq y (List.mem_cons_of_mem _ hy))
    have hx := hpq x (List.mem_cons_self _ _)
    by_cases hpx : p x = true
    · have hrx := hp x (List.mem_cons_self _ _) hpx
      have hqx : ¬(q x = true) := fun h => hx ⟨hpx, h⟩
      simp only [hpx, hrx, if_pos rfl, if_neg hqx]
      omega
    · by_cases hqx : q x = true
      · have hrx := hq x (List.mem_cons_self _ _) hqx
        simp only [hqx, hrx, if_pos rfl, if_neg hpx]
        omega
      · simp only [if_neg hpx, if_neg hqx]
        omega

theorem string_beq_eq_decide (a b : String) : (a == b) = decide (a = b) := by
  by_cases h : a = b
  · subst h
    simp
  · simp [h]

theorem occs_count_le_one (ds : List Discipline) (sid : String)
    (h : (allSubtopicIds ds).Nodup) :
    (occs ds).countP (fun o => decide (o.st.id = sid)) ≤ 1 := by
  have hc := List.nodup_iff_count_le_one.1 h sid
  rw [allSubtopicIds, List.count, List.countP_map] at hc
  refine le_trans (le_of_eq ?_) hc
  apply List.countP_congr
  intro o ho
  rw [Function.comp_apply, string_beq_eq_decide]

theorem insertDesc_perm (c : Candidate) (l : List Candidate) :
    (insertDesc c l).Perm (c :: l) := by
  induction l with
  | nil => exact List.Perm.refl _
  | cons x xs ih =>
    rw [insertDesc]
    split
    · exact List.Perm.refl _
    · exact (ih.cons x).trans (List.Perm.swap c x xs)

theorem sortDesc_perm (l : List Candidate) : (sortDesc l).Perm l := by
  induction l with
  | nil => exact List.Perm.refl _
  | cons x xs ih =>
    rw [sortDesc, List.foldr_cons]
    exact (insertDesc_perm x _).trans (ih.cons x)

theorem candCount_studyCandidates (ds : List Discipline) (today : Nat)
    (rids : List String) (sid : String) :
    candCount (studyCandidates ds today rids) sid
      = (occs ds).countP fun o => decide (o.st.id = sid)
          && (o.st.lastStudied.isNone || !(rids.contains o.st.id)) := by
  rw [candCount, studyCandidates, (sortDesc_perm _).countP_eq, List.countP_map,
    List.countP_filter]
  apply List.countP_congr
  intro o ho
  rw [Function.comp_apply]

theorem reviewDueDate_lastStudied {s : AppSettings} {st : Subtopic} {rd : Nat}
    (h : reviewDueDate s st = some rd) : ∃ ls, st.lastStudied = some ls := by
  cases hls : st.lastStudied with
  | none =>
    rw [reviewDueDate, hls] at h
    cases h
  | some ls => exact ⟨ls, rfl⟩

theorem emits_not_unstudied {s : AppSettings} {today : Nat} {st : Subtopic}
    (h : emitsReview s today st = true) : st.lastStudied.isNone = false := by
  rw [emitsReview] at h
  cases hrd : reviewDueDate s st with
  | none =>
    rw [hrd] at h
    cases h
  | some rd =>
    obtain ⟨ls, hls⟩ := reviewDueDate_lastStudied hrd
    rw [hls]
    rfl

/-- C4: with globally distinct unit ids, every unit id appears in at
most one task across the whole 90-day horizon of one run: a unit with
a generated review is excluded from the study-candidate pool, and a
placed study candidate is removed from the pool. -/
theorem C4_no_duplicate_unit (rng : Nat → Nat) (ds : List Discipline) (s : AppSettings)
    (today pos : Nat) (hNodup : (allSubtopicIds ds).Nodup) :
    ((tasksInWindow (reorganizeAgenda rng ds s today pos) today).map
      fun tk => tk.subtopicId).Nodup := by
  rw [List.nodup_iff_count_le_one]
  intro sid
  have hcnt : ((tasksInWindow (reorganizeAgenda rng ds s today pos) today).map
      fun tk => tk.subtopicId).count sid
      = countId (tasksInWindow (reorganizeAgenda rng ds s today pos) today) sid := by
    rw [List.count, List.countP_map, countId]
    apply List.countP_congr
    intro tk htk
    rw [Function.comp_apply, string_beq_eq_decide]
  rw [hcnt, countId_tasksInWindow]
  rw [reorganizeAgenda]
  split
  · rw [windowCount]
    have hz : ∀ x ∈ (List.range planningHorizon).map fun i =>
        countId (dayTasks emptyPlans (addDays today i)) sid, x = 0 := by
      intro x hx
      obtain ⟨i, _, rfl⟩ := List.mem_map.1 hx
      rfl
    rw [List.sum_eq_zero hz]
    omega
  · show windowCount (fillDays rng s today planningHorizon 0
        ((createReviewTasks rng ds s today pos).1.foldl (placeReviewTask s)
          (initPlans s today))
        (studyCandidates ds today
          ((createReviewTasks rng ds s today pos).1.map fun t => t.subtopicId))
        (createReviewTasks rng ds s today pos).2).1 today sid ≤ 1
    have hbal := fillDays_idBalance rng s today planningHorizon 0
      ((createReviewTasks rng ds s today pos).1.foldl (placeReviewTask s)
        (initPlans s today))
      (studyCandidates ds today
        ((createReviewTasks rng ds s today pos).1.map fun t => t.subtopicId))
      (createReviewTasks rng ds s today pos).2 sid (by omega)
    have hplace := placeFold_windowCount s (createReviewTasks rng ds s today pos).1
      (plansShape_init s today) sid
    rw [windowCount_init] at hplace
    have hRid : countId (createReviewTasks rng ds s today pos).1 sid
        = if s.autoReview
          then (occs ds).countP fun o => decide (o.st.id = sid) && emitsReview s today o.st
          else 0 := by
      rw [countId_createReviewTasks, pureReviewTasks_countId]
    have hcandid := candCount_studyCandidates ds today
      ((createReviewTasks rng ds s today pos).1.map fun t => t.subtopicId) sid
    have hone := occs_count_le_one ds sid hNodup
    have hcand_le : candCount (studyCandidates ds today
        ((createReviewTasks rng ds s today pos).1.map fun t => t.subtopicId)) sid
        ≤ (occs ds).countP fun o => decide (o.st.id = sid) := by
      rw [hcandid]
      apply List.countP_mono_left
      intro o _ hb
      exact (Bool.and_eq_true_iff.1 hb).1
    by_cases hauto : s.autoReview = true
    · have hdisj : (occs ds).countP
            (fun o => decide (o.st.id = sid) && emitsReview s today o.st)
          + (occs ds).countP (fun o => decide (o.st.id = sid)
              && (o.st.lastStudied.isNone
                  || !(((createReviewTasks rng ds s today pos).1.map
                        fun t => t.subtopicId).contains o.st.id)))
          ≤ (occs ds).countP fun o => decide (o.st.id = sid) := by
        apply countP_add_le_of_disjoint
        · intro o _ hpo
          exact (Bool.and_eq_true_iff.1 hpo).1
        · intro o _ hqo
          exact (Bool.and_eq_true_iff.1 hqo).1
        · rintro o ho ⟨hpo, hqo⟩
          have hemit := (Bool.and_eq_true_iff.1 hpo).2
          have hkept := (Bool.and_eq_true_iff.1 hqo).2
          have hstud := emits_not_unstudied hemit
          rw [hstud, Bool.false_or, Bool.not_eq_true'] at hkept
          have hmemid : o.st.id
              ∈ (createReviewTasks rng ds s today pos).1.map fun t => t.subtopicId := by
            have hpos2 : 0 < countId (pureReviewTasks ds s today) o.st.id := by
              rw [pureReviewTasks_countId, if_pos hauto]
              exact List.countP_pos_iff.2 ⟨o, ho, by simp [hemit]⟩
            rw [countId] at hpos2
            obtain ⟨tk, htk, hb⟩ := List.countP_pos_iff.1 hpos2
            have heq : tk.subtopicId = o.st.id := of_decide_eq_true hb
            rw [createReviewTasks_ids, ← heq]
            exact List.mem_map_of_mem _ htk
          have hcontains : ((createReviewTasks rng ds s today pos).1.map
              fun t => t.subtopicId).contains o.st.id = true :=
            List.contains_iff_exists_mem_beq.2 ⟨o.st.id, hmemid, by simp⟩
          rw [hkept] at hcontains
          cases hcontains
      rw [if_pos hauto] at hRid
      omega
    · rw [if_neg hauto] at hRid
      omega

/-- C4 witness: the no-duplicate theorem applied to a run mixing one
due review and one fresh-study unit. -/
theorem C4_witness :
    (allSubtopicIds [c4Disc]).Nodup
    ∧ ((tasksInWindow (reorganizeAgenda wRng [c4Disc] c4Settings wToday 0) wToday).map
        fun tk => tk.subtopicId).Nodup :=
  ⟨by decide, C4_no_duplicate_unit wRng [c4Disc] c4Settings wToday 0 (by decide)⟩

/-! Claim C1, amended part: the PRNG only influences the drawn ids.
Two runs with the same disciplines, settings and today, at any two
PRNG states, produce plan maps that agree after blanking ids. -/

theorem strip_map_proj {α : Type} {l l' : List Task}
    (h : l.map stripTask = l'.map stripTask) (f : Task → α)
    (hf : ∀ t, f (stripTask t) = f t) : l.map f = l'.map f := by
  have h1 : l.map f = (l.map stripTask).map f := by
    rw [List.map_map]
    exact List.map_congr_left fun a _ => (hf a).symm
  have h2 : l'.map f = (l'.map stripTask).map f := by
    rw [List.map_map]
    exact List.map_congr_left fun a _ => (hf a).symm
  rw [h1, h2, h]

theorem strip_countP {l l' : List Task} (h : l.map stripTask = l'.map stripTask)
    (p : Task → Bool) (hp : ∀ t, p (stripTask t) = p t) : l.countP p = l'.countP p := by
  have h1 : l.countP p = (l.map stripTask).countP p := by
    rw [List.countP_map]
    exact List.countP_congr fun a _ => by rw [Function.comp_apply, hp]
  have h2 : l'.countP p = (l'.map stripTask).countP p := by
    rw [List.countP_map]
    exact List.countP_congr fun a _ => by rw [Function.comp_apply, hp]
  rw [h1, h2, h]

theorem sumDur_cons (t : Task) (l : List Task) :
    sumDur (t :: l) = t.duration + sumDur l := by
  rw [sumDur, List.foldl_cons, foldl_dur]
  omega

theorem sumDur_eq_map_sum (l : List Task) :
    sumDur l = (l.map fun t => t.duration).sum := by
  induction l with
  | nil => rfl
  | cons t tl ih => rw [sumDur_cons, List.map_cons, List.sum_cons, ih]

theorem strip_sumDur {l l' : List Task} (h : l.map stripTask = l'.map stripTask) :
    sumDur l = sumDur l' := by
  rw [sumDur_eq_map_sum, sumDur_eq_map_sum,
    strip_map_proj h (fun t => t.duration) fun t => rfl]

theorem reviewCount_eq_countP (l : List Task) :
    reviewCount l = l.countP fun t => decide (t.type = TaskType.review) :=
  (List.countP_eq_length_filter _ l).symm

theorem strip_reviewCount {l l' : List Task} (h : l.map stripTask = l'.map stripTask) :
    reviewCount l = reviewCount l' := by
  rw [reviewCount_eq_countP, reviewCount_eq_countP]
  exact strip_countP h _ fun t => rfl

theorem strip_countByDiscipline {l l' : List Task}
    (h : l.map stripTask = l'.map stripTask) :
    countByDiscipline l = countByDiscipline l' := by
  funext D
  rw [countByDiscipline_eq, countByDiscipline_eq, countDisc, countDisc]
  exact strip_countP h _ fun t => rfl

theorem stripTask_inj {t t' : Task} (h : stripTask t = stripTask t') :
    t.duration = t'.duration ∧ t.reviewDateStr = t'.reviewDateStr := by
  cases t
  cases t'
  simp only [stripTask, Task.mk.injEq] at h
  obtain ⟨h0, h1, h2, h3, h4, h5, h6, h7, h8, h9, h10, h11, h12, h13⟩ := h
  exact ⟨h8, h13⟩

theorem stripPlan_inj {p p' : DailyPlan} (h : stripPlan p = stripPlan p') :
    p.date = p'.date ∧ p.tasks.map stripTask = p'.tasks.map stripTask
      ∧ p.isRestDay = p'.isRestDay := by
  cases p
  cases p'
  simp only [stripPlan, DailyPlan.mk.injEq] at h
  exact h

theorem place_sim (s : AppSettings) {pl pl' : Nat → Option DailyPlan}
    (h : stripPlans pl = stripPlans pl') {task task' : Task}
    (ht : stripTask task = stripTask task') :
    stripPlans (placeReviewTask s pl task) = stripPlans (placeReviewTask s pl' task') := by
  have hrds : task.reviewDateStr = task'.reviewDateStr := (stripTask_inj ht).2
  have hdur : task.duration = task'.duration := (stripTask_inj ht).1
  cases htr : task.reviewDateStr with
  | none =>
    have htr' : task'.reviewDateStr = none := by rw [← hrds, htr]
    simp only [placeReviewTask, htr, htr']
    exact h
  | some rd =>
    have htr' : task'.reviewDateStr = some rd := by rw [← hrds, htr]
    have hx : (pl rd).map stripPlan = (pl' rd).map stripPlan := congrFun h rd
    cases hrd : pl rd with
    | none =>
      have hrd' : pl' rd = none := by
        rw [hrd] at hx
        cases hpl' : pl' rd with
        | none => rfl
        | some dp' =>
          rw [hpl'] at hx
          cases hx
      simp only [placeReviewTask, htr, htr', hrd, hrd']
      exact h
    | some dp =>
      obtain ⟨dp', hrd', hdp⟩ : ∃ dp', pl' rd = some dp' ∧ stripPlan dp = stripPlan dp' := by
        rw [hrd] at hx
        cases hpl' : pl' rd with
        | none =>
          rw [hpl'] at hx
          cases hx
        | some dp' =>
          rw [hpl'] at hx
          exact ⟨dp', rfl, Option.some.inj hx⟩
      have hrest : dp.isRestDay = dp'.isRestDay := (stripPlan_inj hdp).2.2
      have htl : dp.tasks.map stripTask = dp'.tasks.map stripTask := (stripPlan_inj hdp).2.1
      have hdate : dp.date = dp'.date := (stripPlan_inj hdp).1
      have hsum : sumDur dp.tasks = sumDur dp'.tasks := strip_sumDur htl
      have hrc : reviewCount dp.tasks = reviewCount dp'.tasks := strip_reviewCount htl
      by_cases hr : dp.isRestDay = true
      · simp only [placeReviewTask, htr, htr', hrd, hrd', if_pos hr,
          if_pos (hrest ▸ hr)]
        exact h
      · by_cases hfit : sumDur dp.tasks + task.duration ≤ s.dailyStudyMinutes
            ∧ reviewCount dp.tasks < s.maxReviewsPerDay
        · have hfit' : sumDur dp'.tasks + task'.duration ≤ s.dailyStudyMinutes
              ∧ reviewCount dp'.tasks < s.maxReviewsPerDay := by
            rw [← hsum, ← hrc, ← hdur]
            exact hfit
          simp only [placeReviewTask, htr, htr', hrd, hrd', if_neg hr,
            if_neg (hrest ▸ hr), if_pos hfit, if_pos hfit']
          funext x
          simp only [stripPlans, setPlan_apply]
          by_cases hx2 : x = rd
          · rw [if_pos hx2, if_pos hx2]
            show some (stripPlan { dp with tasks := dp.tasks ++ [task] })
              = some (stripPlan { dp' with tasks := dp'.tasks ++ [task'] })
            congr 1
            rw [stripPlan, stripPlan]
            simp only [List.map_append, List.map_cons, List.map_nil, htl, ht, hdate, hrest]
          · rw [if_neg hx2, if_neg hx2]
            exact congrFun h x
        · have hfit' : ¬(sumDur dp'.tasks + task'.duration ≤ s.dailyStudyMinutes
              ∧ reviewCount dp'.tasks < s.maxReviewsPerDay) := by
            rw [← hsum, ← hrc, ← hdur]
            exact hfit
          simp only [placeReviewTask, htr, htr', hrd, hrd', if_neg hr,
            if_neg (hrest ▸ hr), if_neg hfit, if_neg hfit']
          exact h

theorem placeFold_sim (s : AppSettings) {R R' : List Task}
    (hR : R.map stripTask = R'.map stripTask) :
    ∀ {pl pl' : Nat → Option DailyPlan}, stripPlans pl = stripPlans pl' →
      stripPlans (R.foldl (placeReviewTask s) pl)
        = stripPlans (R'.foldl (placeReviewTask s) pl') := by
  induction R generalizing R' with
  | nil =>
    cases R' with
    | nil => exact fun h => h
    | cons t' rest' => cases hR
  | cons t rest ih =>
    cases R' with
    | nil => cases hR
    | cons t' rest' =>
      intro pl pl' h
      rw [List.map_cons, List.map_cons] at hR
      have hht := List.cons.inj hR
      rw [List.foldl_cons, List.foldl_cons]
      exact ih hht.2 (place_sim s h hht.1)

theorem fillLoop_sim (rng rng' : Nat → Nat) (s : AppSettings) (fuel : Nat) :
    ∀ {tasks tasks' : List Task}, tasks.map stripTask = tasks'.map stripTask →
    ∀ (ts : Nat) (counts : String → Nat) (cands : List Candidate) (idx pos pos' : Nat),
      (fillLoop rng s fuel tasks ts counts cands idx pos).1.map stripTask
          = (fillLoop rng' s fuel tasks' ts counts cands idx pos').1.map stripTask
        ∧ (fillLoop rng s fuel tasks ts counts cands idx pos).2.1
          = (fillLoop rng' s fuel tasks' ts counts cands idx pos').2.1 := by
  induction fuel with
  | zero => exact fun h ts counts cands idx pos pos' => ⟨h, rfl⟩
  | succ fuel ih =>
    intro tasks tasks' h ts counts cands idx pos pos'
    by_cases hlt : ts < s.dailyStudyMinutes
    · cases hcand : cands[idx]? with
      | none =>
        simp only [fillLoop, if_pos hlt, hcand]
        exact ⟨h, trivial⟩
      | some c =>
        by_cases hfit : ts + 45 ≤ s.dailyStudyMinutes
            ∧ counts c.discipline.id < s.maxTasksPerDisciplinePerDay
        · simp only [fillLoop, if_pos hlt, hcand, if_pos hfit]
          refine ih ?_ _ _ _ _ _ _
          rw [List.map_append, List.map_append, h]
          rfl
        · simp only [fillLoop, if_pos hlt, hcand, if_neg hfit]
          exact ih h _ _ _ _ _ _
    · rw [fillLoop, fillLoop, if_neg hlt, if_neg hlt]
      exact ⟨h, rfl⟩

theorem fillDays_sim (rng rng' : Nat → Nat) (s : AppSettings) (today : Nat) (k : Nat) :
    ∀ (i : Nat) {pl pl' : Nat → Option DailyPlan}, stripPlans pl = stripPlans pl' →
    ∀ (cands : List Candidate) (pos pos' : Nat),
      stripPlans (fillDays rng s today k i pl cands pos).1
        = stripPlans (fillDays rng' s today k i pl' cands pos').1 := by
  induction k with
  | zero =>
    intro i pl pl' h cands pos pos'
    exact h
  | succ k ih =>
    intro i pl pl' h cands pos pos'
    have hx : (pl (addDays today i)).map stripPlan
        = (pl' (addDays today i)).map stripPlan := congrFun h (addDays today i)
    cases hday : pl (addDays today i) with
    | none =>
      have hday' : pl' (addDays today i) = none := by
        rw [hday] at hx
        cases hpl' : pl' (addDays today i) with
        | none => rfl
        | some dp' =>
          rw [hpl'] at hx
          cases hx
      simp only [fillDays, hday, hday']
      exact ih (i + 1) h cands pos pos'
    | some dp =>
      obtain ⟨dp', hday', hdp⟩ : ∃ dp', pl' (addDays today i) = some dp'
          ∧ stripPlan dp = stripPlan dp' := by
        rw [hday] at hx
        cases hpl' : pl' (addDays today i) with
        | none =>
          rw [hpl'] at hx
          cases hx
        | some dp' =>
          rw [hpl'] at hx
          exact ⟨dp', rfl, Option.some.inj hx⟩
      have hrest : dp.isRestDay = dp'.isRestDay := (stripPlan_inj hdp).2.2
      have htl : dp.tasks.map stripTask = dp'.tasks.map stripTask := (stripPlan_inj hdp).2.1
      have hdate : dp.date = dp'.date := (stripPlan_inj hdp).1
      by_cases hr : dp.isRestDay = true
      · simp only [fillDays, hday, hday', if_pos hr, if_pos (hrest ▸ hr)]
        exact ih (i + 1) h cands pos pos'
      · have hsum : sumDur dp.tasks = sumDur dp'.tasks := strip_sumDur htl
        have hcounts : countByDiscipline dp.tasks = countByDiscipline dp'.tasks :=
          strip_countByDiscipline htl
        simp only [fillDays, hday, hday', if_neg hr, if_neg (hrest ▸ hr)]
        rw [← hsum, ← hcounts]
        have hfl := fillLoop_sim rng rng' s cands.length htl (sumDur dp.tasks)
          (countByDiscipline dp.tasks) cands 0 pos pos'
        rw [← hfl.2]
        refine ih (i + 1) ?_ _ _ _
        funext x
        simp only [stripPlans, setPlan_apply]
        by_cases hx2 : x = addDays today i
        · rw [if_pos hx2, if_pos hx2]
          show some (stripPlan { dp with tasks :=
              (fillLoop rng s cands.length dp.tasks (sumDur dp.tasks)
                (countByDiscipline dp.tasks) cands 0 pos).1 })
            = some (stripPlan { dp' with tasks :=
              (fillLoop rng' s cands.length dp'.tasks (sumDur dp.tasks)
                (countByDiscipline dp.tasks) cands 0 pos').1 })
          congr 1
          rw [stripPlan, stripPlan]
          simp only [hdate, hrest, hfl.1]
        · rw [if_neg hx2, if_neg hx2]
          exact congrFun h x

/-- C1 (amended): the PRNG state only influences the drawn task ids.
Two runs of `reorganizeAgenda` with the same disciplines, settings and
today, from any two PRNG streams and positions, return plan maps that
are identical once every task id is blanked out; together with the
counterexample, this shows the output is deterministic in everything
except the `uuidv4`-generated ids. -/
theorem C1_deterministic_up_to_ids (ds : List Discipline) (s : AppSettings) (today : Nat)
    (rng rng' : Nat → Nat) (pos pos' : Nat) :
    stripPlans (reorganizeAgenda rng ds s today pos)
      = stripPlans (reorganizeAgenda rng' ds s today pos') := by
  by_cases hds : ds.isEmpty = true
  · rw [reorganizeAgenda, reorganizeAgenda, if_pos hds, if_pos hds]
  · rw [reorganizeAgenda, reorganizeAgenda, if_neg hds, if_neg hds]
    have hstrip : (createReviewTasks rng ds s today pos).1.map stripTask
        = (createReviewTasks rng' ds s today pos').1.map stripTask := by
      rw [createReviewTasks_strip, createReviewTasks_strip]
    have hids : (createReviewTasks rng' ds s today pos').1.map (fun t => t.subtopicId)
        = (createReviewTasks rng ds s today pos).1.map fun t => t.subtopicId := by
      rw [createReviewTasks_ids, createReviewTasks_ids]
    show stripPlans (fillDays rng s today planningHorizon 0
        ((createReviewTasks rng ds s today pos).1.foldl (placeReviewTask s)
          (initPlans s today))
        (studyCandidates ds today
          ((createReviewTasks rng ds s today pos).1.map fun t => t.subtopicId))
        (createReviewTasks rng ds s today pos).2).1
      = stripPlans (fillDays rng' s today planningHorizon 0
        ((createReviewTasks rng' ds s today pos').1.foldl (placeReviewTask s)
          (initPlans s today))
        (studyCandidates ds today
          ((createReviewTasks rng' ds s today pos').1.map fun t => t.subtopicId))
        (createReviewTasks rng' ds s today pos').2).1
    rw [hids]
    exact fillDays_sim rng rng' s today planningHorizon 0
      (placeFold_sim s hstrip rfl) _ _ _

end EnemPlanner
